import Mathlib

/-
  Verification development for the efficient_3dunet repository
  (a residual symmetric 3D U-Net, file src/efficient_3dunet.py).

  The Python code is shallowly embedded as follows.

  * Tensors are modelled at the shape level: a TShape is the shape
    (N, C, D, H, W) of a 5-dimensional tensor.  All tensor-engine
    operations (convolution, transposed convolution, max-pooling,
    interpolation upsampling, elementwise addition with broadcasting,
    batch normalization) are modelled by their exact PyTorch shape
    semantics, returning Except Err TShape: an engine failure (channel
    mismatch, non-broadcastable add, non-positive output size, an
    output_padding that is not smaller than both stride and dilation)
    is Err.runtimeError.
  * Python AssertionError (the assert statements in the source, which
    the specification calls InvalidConfigError / InvalidKernelError) is
    Err.assertError; an out-of-range list index is Err.indexError; the
    AttributeError raised by nn.init.constant_(None, 0) is
    Err.attributeError.
  * Module construction is effectful in the source: it reads and writes
    the module-level global MODE and draws from the process RNG
    (kaiming_normal_).  Both are modelled by an explicit World record
    (mode, rng counter) threaded through every constructor; each Conv /
    ConvT records the rng counter value at which its weights were drawn
    (weightSeed), so initialization is the only step that consumes
    randomness and forward functions take no World at all.
  * Elementwise activation functions (F.elu by default) preserve shape,
    so at the shape level they are the identity actShape; momentum and
    track_running_stats do not affect shapes and are dropped.
  * The value-level six-step structure of ConvMod.forward (claim C4) is
    additionally modelled over an abstract tensor type T with abstract
    convolution / normalization / activation functions (ConvModF).
-/

namespace UNet

/-- Error outcomes of the embedded Python code: assertion failures
(AssertionError, which the specification maps to InvalidConfigError and
InvalidKernelError), out-of-range list indexing (IndexError), attribute
access on None (AttributeError), and tensor-engine failures at call
time (RuntimeError). -/
inductive Err where
  | assertError
  | indexError
  | attributeError
  | runtimeError
deriving DecidableEq, Repr

/-- Spatial shape of a 3-dimensional volume: (depth, height, width). -/
structure Sp where
  d : Nat
  h : Nat
  w : Nat
deriving DecidableEq, Repr

/-- Shape (N, C, D, H, W) of a 5-dimensional tensor. -/
structure TShape where
  n : Nat
  c : Nat
  sp : Sp
deriving DecidableEq, Repr

/-- A Python value that is either a scalar or a sequence, as accepted by
_ntuple and by the kernel_size / stride / scale_factor parameters. -/
inductive PyVal where
  | scalar : Nat → PyVal
  | seq : List Nat → PyVal
deriving DecidableEq, Repr

/-- The function _ntuple(n) from the source (copied there from PyTorch):
an iterable argument is returned unchanged, with no length check at all;
a scalar is replicated n times. -/
def ntuple (n : Nat) : PyVal → PyVal
  | .seq l => .seq l
  | .scalar x => .seq (List.replicate n x)

/-- ntuple with the resulting sequence exposed as a list. -/
def ntupleL (n : Nat) (v : PyVal) : List Nat :=
  match ntuple n v with
  | .seq l => l
  | .scalar x => [x]

/-- The source's _triple = _ntuple(3). -/
def tripleOf : PyVal → PyVal := ntuple 3

/-- Padding mode of pad_size. -/
inductive PadMode where
  | valid
  | same
  | full
deriving DecidableEq, Repr

/-- pad_size(kernel_size, mode) from the source: the kernel is first
normalized with _triple; in mode same every component must be odd
(assert) and the padding is componentwise k / 2; valid gives zeros and
full gives k - 1. -/
def pad_size (kernel_size : PyVal) (mode : PadMode) : Except Err (List Nat) :=
  let ks := ntupleL 3 kernel_size
  match mode with
  | .valid => .ok [0, 0, 0]
  | .same =>
      if ks.all (fun x => x % 2 = 1) then .ok (ks.map (fun x => x / 2))
      else .error .assertError
  | .full => .ok (ks.map (fun x => x - 1))

/-- Normalization of a 3-component parameter (kernel size, stride,
padding, scale factor) done by the tensor engine: a list that does not
have exactly three components cannot parameterize a 3-d operator. -/
def asTriple : List Nat → Except Err Sp
  | [a, b, c] => .ok ⟨a, b, c⟩
  | _ => .error .runtimeError

/-- The process-wide mutable state the constructors interact with: the
module-level global MODE and the global RNG (a draw counter). -/
structure World where
  mode : String
  rng : Nat
deriving DecidableEq, Repr

/-- Convolution backend selected by the global MODE: the fast3d Conv3d
when MODE equals tvm, nn.Conv3d otherwise. -/
inductive Backend where
  | tvm
  | torch
deriving DecidableEq, Repr

/-- State of one Conv block (class Conv in the source). -/
structure Conv where
  inC : Nat
  outC : Nat
  ks : Sp
  st : Sp
  pd : Sp
  backend : Backend
  weightSeed : Nat
deriving DecidableEq, Repr

/-- Conv.__init__: the backend is chosen by reading the global MODE; in
both branches the wrapped convolution is created without a bias
parameter (Conv3d(..., bias=None) in the tvm branch, nn.Conv3d(...,
bias=False) otherwise); kaiming_normal_ draws once from the RNG; then,
if the bias option is set, nn.init.constant_(self.conv.bias, 0) is
executed on a bias attribute that is None and raises AttributeError. -/
def Conv.init (inC outC : Nat) (ks st pd : Sp) (bias : Bool) (w : World) :
    Except Err (Conv × World) :=
  let backend := if w.mode = "tvm" then Backend.tvm else Backend.torch
  let conv : Conv := ⟨inC, outC, ks, st, pd, backend, w.rng⟩
  let w' : World := { w with rng := w.rng + 1 }
  if bias then .error .attributeError
  else .ok (conv, w')

/-- Output extent of a convolution along one axis (PyTorch semantics):
floor((i + 2 p - k) / s) + 1, defined when the stride is positive and
the padded input is at least as large as the kernel; otherwise the
engine raises. -/
def convDim (i k s p : Nat) : Except Err Nat :=
  if 1 ≤ s ∧ k ≤ i + 2 * p then .ok ((i + 2 * p - k) / s + 1)
  else .error .runtimeError

/-- Convolution output spatial shape, axis by axis. -/
def convSp (ks st pd : Sp) (sp : Sp) : Except Err Sp := do
  let a ← convDim sp.d ks.d st.d pd.d
  let b ← convDim sp.h ks.h st.h pd.h
  let c ← convDim sp.w ks.w st.w pd.w
  .ok ⟨a, b, c⟩

/-- Conv.forward: apply the stored convolution.  The input channel
count must match the declared one. -/
def Conv.forward (c : Conv) (t : TShape) : Except Err TShape :=
  if t.c = c.inC then (convSp c.ks c.st c.pd t.sp).map (fun sp => ⟨t.n, c.outC, sp⟩)
  else .error .runtimeError

/-- State of one ConvT block (class ConvT, nn.ConvTranspose3d). -/
structure ConvT where
  inC : Nat
  outC : Nat
  ks : Sp
  st : Sp
  pd : Sp
  op : Sp
  weightSeed : Nat
  hasBias : Bool
deriving DecidableEq, Repr

/-- ConvT.__init__: nn.ConvTranspose3d is created with the requested
bias (which does exist here), kaiming_normal_ draws once, and an
existing bias is zero-filled successfully. -/
def ConvT.init (inC outC : Nat) (ks st pd op : Sp) (bias : Bool) (w : World) :
    Except Err (ConvT × World) :=
  let c : ConvT := ⟨inC, outC, ks, st, pd, op, w.rng, bias⟩
  let w' : World := { w with rng := w.rng + 1 }
  .ok (c, w')

/-- Output extent of a transposed convolution along one axis (PyTorch
semantics): (i - 1) s - 2 p + k + op, requiring a positive stride and
input extent, an output_padding smaller than the stride or the dilation
(the dilation is 1 here), and a positive output. -/
def convTDim (i k s p op : Nat) : Except Err Nat :=
  if 1 ≤ s ∧ 1 ≤ i ∧ (op < s ∨ op = 0) ∧ 2 * p + 1 ≤ (i - 1) * s + k + op
  then .ok ((i - 1) * s + k + op - 2 * p)
  else .error .runtimeError

/-- Transposed convolution output spatial shape, axis by axis. -/
def convTSp (ks st pd op : Sp) (sp : Sp) : Except Err Sp := do
  let a ← convTDim sp.d ks.d st.d pd.d op.d
  let b ← convTDim sp.h ks.h st.h pd.h op.h
  let c ← convTDim sp.w ks.w st.w pd.w op.w
  .ok ⟨a, b, c⟩

/-- ConvT.forward. -/
def ConvT.forward (c : ConvT) (t : TShape) : Except Err TShape :=
  if t.c = c.inC then (convTSp c.ks c.st c.pd c.op t.sp).map (fun sp => ⟨t.n, c.outC, sp⟩)
  else .error .runtimeError

/-- A normalization layer: either real batch normalization over a fixed
channel count, or the identity lambda the source substitutes when batch
normalization is disabled. -/
inductive NormGate where
  | bn : Nat → NormGate
  | idGate : NormGate
deriving DecidableEq, Repr

/-- The batchnorm helper of the source. -/
def batchnorm (outC : Nat) (useBn : Bool) : NormGate :=
  if useBn then .bn outC else .idGate

/-- Shape behaviour of a NormGate: nn.BatchNorm3d requires the input
channel count to equal the declared one and preserves the shape; the
identity lambda preserves everything. -/
def NormGate.apply : NormGate → TShape → Except Err TShape
  | .bn c, t => if t.c = c then .ok t else .error .runtimeError
  | .idGate, t => .ok t

/-- Elementwise activation (F.elu by default) preserves the shape. -/
def actShape (t : TShape) : TShape := t

/-- Broadcasting of one dimension in an elementwise binary operation. -/
def bcast (a b : Nat) : Except Err Nat :=
  if a = b then .ok a
  else if a = 1 then .ok b
  else if b = 1 then .ok a
  else .error .runtimeError

/-- Shape of x + y with PyTorch broadcasting. -/
def addShape (x y : TShape) : Except Err TShape := do
  let n ← bcast x.n y.n
  let c ← bcast x.c y.c
  let a ← bcast x.sp.d y.sp.d
  let b ← bcast x.sp.h y.sp.h
  let e ← bcast x.sp.w y.sp.w
  .ok ⟨n, c, ⟨a, b, e⟩⟩

/-- Shape behaviour of residual_sum(x, skip, residual). -/
def residualSumS (x skip : TShape) (residual : Bool) : Except Err TShape :=
  if residual then addShape x skip else .ok x

/-- State of a ConvMod: three Conv blocks, three normalization gates and
the residual flag (the activation is elementwise and shape-neutral). -/
structure ConvMod where
  conv1 : Conv
  conv2 : Conv
  conv3 : Conv
  bn1 : NormGate
  bn2 : NormGate
  bn3 : NormGate
  residual : Bool
deriving DecidableEq, Repr

/-- ConvMod.__init__: normalize the kernel with _triple, stride (1,1,1),
same padding (asserting odd kernel components), bias = not use_bn, three
Conv blocks chained in_channels -> out_channels -> out_channels ->
out_channels, three batchnorm gates. -/
def ConvMod.init (inC outC : Nat) (kernel_size : PyVal) (residual useBn : Bool)
    (w : World) : Except Err (ConvMod × World) := do
  let ksL := ntupleL 3 kernel_size
  let st : Sp := ⟨1, 1, 1⟩
  let pdL ← pad_size kernel_size .same
  let ks ← asTriple ksL
  let pd ← asTriple pdL
  let bias := !useBn
  let (c1, w) ← Conv.init inC outC ks st pd bias w
  let (c2, w) ← Conv.init outC outC ks st pd bias w
  let (c3, w) ← Conv.init outC outC ks st pd bias w
  .ok (⟨c1, c2, c3, batchnorm outC useBn, batchnorm outC useBn, batchnorm outC useBn,
        residual⟩, w)

/-- ConvMod.forward, exactly in source order: conv1, bn1, activation,
remember the skip, conv2, bn2, activation, conv3, residual_sum, bn3,
activation. -/
def ConvMod.forward (m : ConvMod) (x0 : TShape) : Except Err TShape := do
  let x ← m.conv1.forward x0
  let x ← m.bn1.apply x
  let x := actShape x
  let skip := x
  let x ← m.conv2.forward x
  let x ← m.bn2.apply x
  let x := actShape x
  let x ← m.conv3.forward x
  let x ← residualSumS x skip m.residual
  let x ← m.bn3.apply x
  .ok (actShape x)

/-- The upsampling layer inside an UpsampleMod: nn.Upsample with an
integer scale factor (trilinear and nearest have the same shape
behaviour), or a transposed convolution. -/
inductive UpLayer where
  | interp : Sp → UpLayer
  | tconv : ConvT → UpLayer
deriving DecidableEq, Repr

/-- Shape behaviour of the upsampling layer: interpolation multiplies
every spatial extent by the scale factor. -/
def UpLayer.apply : UpLayer → TShape → Except Err TShape
  | .interp s, t => .ok ⟨t.n, t.c, ⟨t.sp.d * s.d, t.sp.h * s.h, t.sp.w * s.w⟩⟩
  | .tconv c, t => c.forward t

/-- State of an UpsampleMod.  conv = none models the identity lambda the
transpose branch installs in place of a channel-matching convolution. -/
structure UpsampleMod where
  up : UpLayer
  conv : Option Conv
  bn : NormGate
deriving DecidableEq, Repr

/-- UpsampleMod.__init__: kernel (1,1,1), stride (1,1,1), padding
(0,0,0), bias False; mode bilinear and nearest install nn.Upsample plus
a 1x1x1 Conv, mode transpose installs a ConvT with kernel and stride
equal to the scale factor and the identity in place of the conv; any
other mode hits assert False (an AssertionError at construction). -/
def UpsampleMod.init (inC outC : Nat) (upArg : PyVal) (mode : String) (useBn : Bool)
    (w : World) : Except Err (UpsampleMod × World) :=
  let ks : Sp := ⟨1, 1, 1⟩
  let st : Sp := ⟨1, 1, 1⟩
  let pd : Sp := ⟨0, 0, 0⟩
  let bias := false
  if mode = "bilinear" then do
    let up ← asTriple (ntupleL 3 upArg)
    let (c, w) ← Conv.init inC outC ks st pd bias w
    .ok (⟨.interp up, some c, batchnorm outC useBn⟩, w)
  else if mode = "nearest" then do
    let up ← asTriple (ntupleL 3 upArg)
    let (c, w) ← Conv.init inC outC ks st pd bias w
    .ok (⟨.interp up, some c, batchnorm outC useBn⟩, w)
  else if mode = "transpose" then do
    let up ← asTriple (ntupleL 3 upArg)
    let (tc, w) ← ConvT.init inC outC up up ⟨0, 0, 0⟩ ⟨0, 0, 0⟩ bias w
    .ok (⟨.tconv tc, none, batchnorm outC useBn⟩, w)
  else .error .assertError

/-- The self.conv member of an UpsampleMod (identity in the transpose
branch). -/
def UpsampleMod.convApply (m : UpsampleMod) (t : TShape) : Except Err TShape :=
  match m.conv with
  | some c => c.forward t
  | none => .ok t

/-- UpsampleMod.forward(x, skip): upsample, channel-match, add the skip,
normalize, activate — in source order. -/
def UpsampleMod.forward (m : UpsampleMod) (x0 skip : TShape) : Except Err TShape := do
  let x ← m.up.apply x0
  let x ← m.convApply x
  let s ← addShape x skip
  let x ← m.bn.apply s
  .ok (actShape x)

/-- State of an EmbeddingMod: one Conv plus elementwise activation. -/
structure EmbeddingMod where
  conv : Conv
deriving DecidableEq, Repr

/-- EmbeddingMod.__init__: same padding for the kernel, a Conv with the
given stride and bias=False. -/
def EmbeddingMod.init (inC outC : Nat) (kernel_size strideArg : PyVal) (w : World) :
    Except Err (EmbeddingMod × World) := do
  let pdL ← pad_size kernel_size .same
  let pd ← asTriple pdL
  let ks ← asTriple (ntupleL 3 kernel_size)
  let st ← asTriple (ntupleL 3 strideArg)
  let (c, w) ← Conv.init inC outC ks st pd false w
  .ok (⟨c⟩, w)

/-- EmbeddingMod.forward: activation of the convolution. -/
def EmbeddingMod.forward (e : EmbeddingMod) (t : TShape) : Except Err TShape :=
  (e.conv.forward t).map actShape

/-- State of an EmbeddingModUP: one ConvT plus activation. -/
structure EmbeddingModUP where
  conv : ConvT
deriving DecidableEq, Repr

/-- EmbeddingModUP.__init__: same padding for the kernel and a ConvT
with the given stride, the hard-coded output padding (0,1,1) and
bias=False. -/
def EmbeddingModUP.init (inC outC : Nat) (kernel_size strideArg : PyVal) (w : World) :
    Except Err (EmbeddingModUP × World) := do
  let pdL ← pad_size kernel_size .same
  let pd ← asTriple pdL
  let ks ← asTriple (ntupleL 3 kernel_size)
  let st ← asTriple (ntupleL 3 strideArg)
  let (c, w) ← ConvT.init inC outC ks st pd ⟨0, 1, 1⟩ false w
  .ok (⟨c⟩, w)

/-- EmbeddingModUP.forward: activation of the transposed convolution. -/
def EmbeddingModUP.forward (e : EmbeddingModUP) (t : TShape) : Except Err TShape :=
  (e.conv.forward t).map actShape

/-- State of an OutputMod: one Conv, no activation. -/
structure OutputMod where
  conv : Conv
deriving DecidableEq, Repr

/-- OutputMod.__init__ with its default kernel_size = 1: same padding
(0,0,0), stride 1, bias=False. -/
def OutputMod.init (inC outC : Nat) (w : World) : Except Err (OutputMod × World) := do
  let pdL ← pad_size (.scalar 1) .same
  let pd ← asTriple pdL
  let (c, w) ← Conv.init inC outC ⟨1, 1, 1⟩ ⟨1, 1, 1⟩ pd false w
  .ok (⟨c⟩, w)

/-- OutputMod.forward: the raw convolution output. -/
def OutputMod.forward (o : OutputMod) (t : TShape) : Except Err TShape :=
  o.conv.forward t

/-- The output feature-lift module chosen by RSUNet.__init__: a plain
EmbeddingMod or an EmbeddingModUP. -/
inductive EOut where
  | plain : EmbeddingMod → EOut
  | up : EmbeddingModUP → EOut
deriving DecidableEq, Repr

/-- Forward of whichever output embedding was selected. -/
def EOut.forward : EOut → TShape → Except Err TShape
  | .plain e, t => e.forward t
  | .up e, t => e.forward t

/-- Whether the plain EmbeddingMod branch was selected. -/
def EOut.isPlain : EOut → Bool
  | .plain _ => true
  | .up _ => false

/-- Output extent of max pooling along one axis with stride = kernel
(nn.MaxPool3d(k)): floor((i - k) / k) + 1, requiring k positive and the
input at least as large as the kernel. -/
def poolDim (i k : Nat) : Except Err Nat :=
  if 1 ≤ k ∧ k ≤ i then .ok ((i - k) / k + 1)
  else .error .runtimeError

/-- Shape behaviour of nn.MaxPool3d with the given kernel. -/
def maxPool (k : Sp) (t : TShape) : Except Err TShape := do
  let a ← poolDim t.sp.d k.d
  let b ← poolDim t.sp.h k.h
  let c ← poolDim t.sp.w k.w
  .ok ⟨t.n, t.c, ⟨a, b, c⟩⟩

/-- The module-level nfeatures = (24, 64, 192, 192, 192). -/
def nfeaturesDefault : List Nat := [24, 64, 192, 192, 192]

/-- The module-level sizes = [(3,3,3)] * len(nfeatures): a fixed list of
five kernel sizes, regardless of the schedule the caller passes. -/
def sizes : List PyVal := List.replicate nfeaturesDefault.length (.seq [3, 3, 3])

/-- The module-level embed_ks = (1,5,5). -/
def embed_ks : PyVal := .seq [1, 5, 5]

/-- The module-level embed_nin = nfeatures[0] (the global nfeatures, so
24 regardless of the schedule passed to the constructor). -/
def embed_nin : Nat := nfeaturesDefault.getD 0 0

/-- The module-level embed_nout = embed_nin. -/
def embed_nout : Nat := embed_nin

/-- The module-level default init_stride = (1,2,2). -/
def init_stride_default : PyVal := .seq [1, 2, 2]

/-- Python list indexing: out of range raises IndexError. -/
def liftIdx {α : Type} : Option α → Except Err α
  | some a => .ok a
  | none => .error .indexError

/-- The Python comparison init_stride == 1: true exactly for the scalar
1; a tuple never compares equal to an integer, so (1,1,1) == 1 is
False. -/
def pyEqOne : PyVal → Bool
  | .scalar 1 => true
  | _ => false

/-- State of a constructed RSUNet.  convmods are the contracting
convmod d modules in ascending order of d, pools the maxpool (d+1)
kernels, bridge is convmod depth; upsamplesD and dconvmodsD hold
upsample d and dconvmod d in construction order, which is descending
d = depth-1, ..., 0. -/
structure RSUNet where
  depth : Nat
  embed_in : EmbeddingMod
  convmods : List ConvMod
  pools : List Sp
  bridge : ConvMod
  upsamplesD : List UpsampleMod
  dconvmodsD : List ConvMod
  embed_out : EOut
  output : OutputMod
deriving DecidableEq, Repr

/-- The contracting loop of RSUNet.__init__: for d in range(depth),
read nfeatures[d] (the constructor argument) and sizes[d] (the fixed
module-level list), build convmod d and maxpool (d+1), and thread
in_channels.  The first argument pair is the current index and the
remaining iteration count. -/
def buildContract (residual useBn : Bool) (nfeat : List Nat) :
    Nat → Nat → Nat → World → Except Err (List ConvMod × List Sp × Nat × World)
  | _, 0, inC, w => .ok ([], [], inC, w)
  | i, fuel + 1, inC, w => do
      let fs ← liftIdx nfeat[i]?
      let ks ← liftIdx sizes[i]?
      let (cm, w) ← ConvMod.init inC fs ks residual useBn w
      let (cms, ps, c, w) ← buildContract residual useBn nfeat (i + 1) fuel fs w
      .ok (cm :: cms, ⟨2, 2, 2⟩ :: ps, c, w)

/-- The expanding loop of RSUNet.__init__: for d in reversed(range(depth)),
read nfeatures[d] and sizes[d], build upsample d (with the default
scale up=2 of add_upsample_mod) and dconvmod d, and thread in_channels.
The first argument is the number of stages still to build; stage d is
built when that number is d + 1, so the produced lists are in descending
stage order. -/
def buildExpand (residual : Bool) (upsample : String) (useBn : Bool) (nfeat : List Nat) :
    Nat → Nat → World → Except Err (List UpsampleMod × List ConvMod × Nat × World)
  | 0, inC, w => .ok ([], [], inC, w)
  | d + 1, inC, w => do
      let fs ← liftIdx nfeat[d]?
      let ks ← liftIdx sizes[d]?
      let (um, w) ← UpsampleMod.init inC fs (.scalar 2) upsample useBn w
      let (dm, w) ← ConvMod.init fs fs ks residual useBn w
      let (ups, dcs, c, w) ← buildExpand residual upsample useBn nfeat d fs w
      .ok (um :: ups, dm :: dcs, c, w)

/-- RSUNet.__init__ in source order: set the global MODE to the mode
argument, assert depth < len(nfeatures), build embed_in (an EmbeddingMod
with stride init_stride from 1 channel to embed_nin), the contracting
loop, the bridge convmod depth, the expanding loop, then embed_out — an
EmbeddingMod when init_stride == 1 (Python equality, so only for the
scalar 1) and an EmbeddingModUP with stride init_stride otherwise — and
the OutputMod projecting embed_nout channels to aff. -/
def buildRSUNet (aff depth : Nat) (residual : Bool) (upsample : String) (useBn : Bool)
    (initStride : PyVal) (nfeat : List Nat) (mode : String) (w0 : World) :
    Except Err (RSUNet × World) := do
  let w : World := { w0 with mode := mode }
  if depth < nfeat.length then
    let (ein, w) ← EmbeddingMod.init 1 embed_nin embed_ks initStride w
    let (cms, ps, c1, w) ← buildContract residual useBn nfeat 0 depth embed_nin w
    let fs ← liftIdx nfeat[depth]?
    let ksb ← liftIdx sizes[depth]?
    let (br, w) ← ConvMod.init c1 fs ksb residual useBn w
    let (upsD, dcsD, c2, w) ← buildExpand residual upsample useBn nfeat depth fs w
    let (eout, w) ←
      if pyEqOne initStride then
        (EmbeddingMod.init c2 embed_nout embed_ks (.scalar 1) w).map
          (fun p => (EOut.plain p.1, p.2))
      else
        (EmbeddingModUP.init c2 embed_nout embed_ks initStride w).map
          (fun p => (EOut.up p.1, p.2))
    let (out, w) ← OutputMod.init embed_nout aff w
    .ok (⟨depth, ein, cms, ps, br, upsD, dcsD, eout, out⟩, w)
  else .error .assertError

/-- The contracting half of RSUNet.forward: for each stage, apply the
convmod, append its output to the skip list, then pool.  Returns the
final tensor shape and the recorded skips in ascending stage order,
exactly as the Python list skip is filled by append. -/
def contractSteps : List (ConvMod × Sp) → TShape → Except Err (TShape × List TShape)
  | [], x => .ok (x, [])
  | (cm, pk) :: rest, x => do
      let y ← cm.forward x
      let z ← maxPool pk y
      let (xf, sk) ← contractSteps rest z
      .ok (xf, y :: sk)

/-- The expanding half of RSUNet.forward: each triple is the upsample
module, the dconvmod and the skip tensor consumed at that stage, already
arranged in iteration order (d = depth-1 down to 0). -/
def expandSteps : List (UpsampleMod × ConvMod × TShape) → TShape → Except Err TShape
  | [], x => .ok x
  | (um, dm, s) :: rest, x => do
      let y ← um.forward x s
      let z ← dm.forward y
      expandSteps rest z

/-- RSUNet.forward: embed_in, the contracting loop recording skips, the
bridge, the expanding loop for d in reversed(range(depth)) consuming
skip[d] at stage d (upsamplesD and dconvmodsD are stored in that
descending order, so the ascending skip list is reversed to pair
stage d with skip[d]), embed_out, output. -/
def RSUNet.forward (net : RSUNet) (x0 : TShape) : Except Err TShape := do
  let x ← net.embed_in.forward x0
  let (x, skips) ← contractSteps (net.convmods.zip net.pools) x
  let x ← net.bridge.forward x
  let x ← expandSteps (net.upsamplesD.zip (net.dconvmodsD.zip skips.reverse)) x
  let x ← net.embed_out.forward x
  net.output.forward x

/-- residual_sum(x, skip, residual) from the source, at the value level
over any tensor type with addition. -/
def residual_sum {T : Type} [Add T] (x skip : T) (residual : Bool) : T :=
  if residual then x + skip else x

/-- Value-level ConvMod over an abstract tensor type: the three
convolutions, the three normalizations and the activation as abstract
functions, plus the residual flag. -/
structure ConvModF (T : Type) where
  conv1 : T → T
  conv2 : T → T
  conv3 : T → T
  bn1 : T → T
  bn2 : T → T
  bn3 : T → T
  activation : T → T
  residual : Bool

/-- ConvMod.forward at the value level, statement for statement in
source order (lines 127-141). -/
def ConvModF.forward {T : Type} [Add T] (m : ConvModF T) (x0 : T) : T :=
  let x := m.conv1 x0
  let x := m.bn1 x
  let x := m.activation x
  let skip := x
  let x := m.conv2 x
  let x := m.bn2 x
  let x := m.activation x
  let x := m.conv3 x
  let x := residual_sum x skip m.residual
  let x := m.bn3 x
  m.activation x

/-- The six-step sequence exactly as the specification words it:
h = activation(norm1(conv1(x))); skip = h;
h = activation(norm2(conv2(h))); h = conv3(h);
h = h + skip when residual is enabled, else h unchanged;
result = activation(norm3(h)). -/
def ConvModF.specSteps {T : Type} [Add T] (m : ConvModF T) (x : T) : T :=
  let h1 := m.activation (m.bn1 (m.conv1 x))
  let skip := h1
  let h2 := m.activation (m.bn2 (m.conv2 h1))
  let h3 := m.conv3 h2
  let h4 := if m.residual then h3 + skip else h3
  m.activation (m.bn3 h4)

/-
  Helper predicates and derived quantities used by the theorems.
-/

/-- Halving of a spatial shape (one pooling step on exactly divisible
extents). -/
def half (sp : Sp) : Sp := ⟨sp.d / 2, sp.h / 2, sp.w / 2⟩

/-- Spatial shape after k halvings. -/
def shr (k : Nat) (sp : Sp) : Sp := ⟨sp.d / 2 ^ k, sp.h / 2 ^ k, sp.w / 2 ^ k⟩

/-- Doubling of a spatial shape (one upsampling step by factor 2). -/
def dbl (sp : Sp) : Sp := ⟨sp.d * 2, sp.h * 2, sp.w * 2⟩

/-- Every spatial extent is divisible by 2 ^ k. -/
def SpDvd (k : Nat) (sp : Sp) : Prop :=
  2 ^ k ∣ sp.d ∧ 2 ^ k ∣ sp.h ∧ 2 ^ k ∣ sp.w

instance (k : Nat) (sp : Sp) : Decidable (SpDvd k sp) := by
  unfold SpDvd; infer_instance

/-- Every spatial extent is at least 2 ^ k. -/
def SpLe (k : Nat) (sp : Sp) : Prop :=
  2 ^ k ≤ sp.d ∧ 2 ^ k ≤ sp.h ∧ 2 ^ k ≤ sp.w

instance (k : Nat) (sp : Sp) : Decidable (SpLe k sp) := by
  unfold SpLe; infer_instance

/-- The skip shapes the contracting path records, starting at schedule
index i with the given number of stages: stage j produces a tensor with
nfeat[i + j] channels at the spatial shape halved j times. -/
def skipList (nfeat : List Nat) (n : Nat) : Nat → Nat → Sp → List TShape
  | _, 0, _ => []
  | i, fuel + 1, sp => ⟨n, nfeat.getD i 0, sp⟩ :: skipList nfeat n (i + 1) fuel (half sp)

/-- A dummy Conv used only as a default for total projections out of
Except in closed witness statements. -/
def conv0 : Conv := ⟨0, 0, ⟨1, 1, 1⟩, ⟨1, 1, 1⟩, ⟨0, 0, 0⟩, .torch, 0⟩

/-- A dummy ConvMod (same purpose). -/
def convMod0 : ConvMod := ⟨conv0, conv0, conv0, .idGate, .idGate, .idGate, false⟩

/-- A dummy network (same purpose). -/
def net0 : RSUNet := ⟨0, ⟨conv0⟩, [], [], convMod0, [], [], .plain ⟨conv0⟩, ⟨conv0⟩⟩

/-- Total projection of a build result to its network, with the dummy
network as default on error. -/
def getNet (e : Except Err (RSUNet × World)) : RSUNet :=
  match e with
  | .ok p => p.1
  | .error _ => net0

/-- Total projection of a build result to its final world. -/
def getW (e : Except Err (RSUNet × World)) : World :=
  match e with
  | .ok p => p.2
  | .error _ => ⟨"tvm", 0⟩

/-- A well-formed stride or scale argument: a scalar or a sequence of
exactly three components (anything else is rejected by the engine's
parameter normalization). -/
def istrOkB : PyVal → Bool
  | .scalar _ => true
  | .seq [_, _, _] => true
  | .seq _ => false

/-- Backend chosen when the global MODE holds the given string. -/
def bk (mode : String) : Backend :=
  if mode = "tvm" then Backend.tvm else Backend.torch

/-- The default UpsampleMod used by total list projections in
statements. -/
def upDflt : UpsampleMod := ⟨.interp ⟨1, 1, 1⟩, none, .idGate⟩

/-- All three backends of a ConvMod. -/
def ConvMod.backends (m : ConvMod) : List Backend :=
  [m.conv1.backend, m.conv2.backend, m.conv3.backend]

/-- The backend of the channel-matching Conv of an UpsampleMod (empty
for the transpose strategy, whose upsampling is a ConvT and whose conv
member is the identity lambda). -/
def UpsampleMod.backends (u : UpsampleMod) : List Backend :=
  match u.conv with
  | some c => [c.backend]
  | none => []

/-- The backend of the output embedding (empty for the upsampling
variant, which wraps a ConvT). -/
def EOut.backends : EOut → List Backend
  | .plain e => [e.conv.backend]
  | .up _ => []

/-- Every backend of every Conv block held by the network. -/
def RSUNet.convBackends (net : RSUNet) : List Backend :=
  net.embed_in.conv.backend ::
    ((net.convmods.map ConvMod.backends).flatten ++ net.bridge.backends ++
      (net.upsamplesD.map UpsampleMod.backends).flatten ++
      (net.dconvmodsD.map ConvMod.backends).flatten ++ net.embed_out.backends ++
      [net.output.conv.backend])

/-- The computation can only fail with a tensor-engine RuntimeError. -/
def RunsClean {α : Type} (x : Except Err α) : Prop :=
  ∀ e, x = .error e → e = .runtimeError

/-- The network of the concrete scenario, but with init_stride given as
the tuple (1,1,1). -/
def buildTuple111 : Except Err (RSUNet × World) :=
  buildRSUNet 3 2 true "bilinear" true (.seq [1, 1, 1]) [8, 16, 32] "tvm" ⟨"tvm", 0⟩

/-- The network of the concrete scenario with init_stride the scalar 1. -/
def buildScalar1 : Except Err (RSUNet × World) :=
  buildRSUNet 3 2 true "bilinear" true (.scalar 1) [8, 16, 32] "tvm" ⟨"tvm", 0⟩

/-- A depth-2 network with the default init_stride (1,2,2). -/
def buildDefault2 : Except Err (RSUNet × World) :=
  buildRSUNet 3 2 true "bilinear" true (.seq [1, 2, 2]) [8, 16, 32] "tvm" ⟨"tvm", 0⟩

/-- A network built with mode torch, starting from a world whose global
MODE still holds tvm. -/
def buildTorch : Except Err (RSUNet × World) :=
  buildRSUNet 3 1 true "bilinear" true (.seq [1, 2, 2]) [8, 16] "torch" ⟨"tvm", 0⟩

/-- A second network built with mode tvm in the world left behind by
buildTorch. -/
def buildTvmAfter : Except Err (RSUNet × World) :=
  buildRSUNet 3 1 true "bilinear" true (.seq [1, 2, 2]) [8, 16] "tvm" (getW buildTorch)

/-
  Generic inversion lemmas for the Except monad.
-/

theorem exBind_ok {α β : Type} {x : Except Err α} {f : α → Except Err β} {b : β} :
    x >>= f = .ok b ↔ ∃ a, x = .ok a ∧ f a = .ok b := by
  cases x <;> simp [Bind.bind, Except.bind]

theorem exMap_ok {α β : Type} {x : Except Err α} {g : α → β} {b : β} :
    x.map g = .ok b ↔ ∃ a, x = .ok a ∧ g a = b := by
  cases x <;> simp [Except.map]

theorem exBind_err {α β : Type} {x : Except Err α} {f : α → Except Err β} {e : Err} :
    x = .error e → x >>= f = .error e := by
  intro h; subst h; rfl

theorem exBind_ok_err {α β : Type} {x : Except Err α} {f : α → Except Err β} {a : α}
    {e : Err} : x = .ok a → f a = .error e → x >>= f = .error e := by
  intro h hf; subst h; exact hf

/-
  Arithmetic facts about the shape helpers.
-/

theorem shr_zero (sp : Sp) : shr 0 sp = sp := by
  simp [shr]

theorem shr_half (k : Nat) (sp : Sp) : shr k (half sp) = shr (k + 1) sp := by
  simp only [shr, half, Sp.mk.injEq]
  refine ⟨?_, ?_, ?_⟩ <;> rw [Nat.div_div_eq_div_mul] <;> rw [pow_succ] <;> ring_nf

theorem dvd_half {a k : Nat} (h : 2 ^ (k + 1) ∣ a) : 2 ^ k ∣ a / 2 := by
  obtain ⟨c, hc⟩ := h
  subst hc
  rw [pow_succ]
  rw [show 2 ^ k * 2 * c = 2 * (2 ^ k * c) by ring]
  rw [Nat.mul_div_cancel_left _ (by norm_num)]
  exact Dvd.intro c rfl

theorem spDvd_half {k : Nat} {sp : Sp} (h : SpDvd (k + 1) sp) : SpDvd k (half sp) :=
  ⟨dvd_half h.1, dvd_half h.2.1, dvd_half h.2.2⟩

theorem le_half {a k : Nat} (h : 2 ^ (k + 1) ≤ a) : 2 ^ k ≤ a / 2 := by
  have h2 : 2 ^ (k + 1) / 2 ≤ a / 2 := Nat.div_le_div_right h
  calc 2 ^ k = 2 ^ (k + 1) / 2 := by rw [pow_succ]; omega
  _ ≤ a / 2 := h2

theorem spLe_half {k : Nat} {sp : Sp} (h : SpLe (k + 1) sp) : SpLe k (half sp) :=
  ⟨le_half h.1, le_half h.2.1, le_half h.2.2⟩

theorem spDvd_mono {j k : Nat} {sp : Sp} (hjk : j ≤ k) (h : SpDvd k sp) : SpDvd j sp :=
  ⟨dvd_trans (pow_dvd_pow 2 hjk) h.1, dvd_trans (pow_dvd_pow 2 hjk) h.2.1,
   dvd_trans (pow_dvd_pow 2 hjk) h.2.2⟩

theorem spLe_mono {j k : Nat} {sp : Sp} (hjk : j ≤ k) (h : SpLe k sp) : SpLe j sp :=
  ⟨le_trans (Nat.pow_le_pow_right (by norm_num) hjk) h.1,
   le_trans (Nat.pow_le_pow_right (by norm_num) hjk) h.2.1,
   le_trans (Nat.pow_le_pow_right (by norm_num) hjk) h.2.2⟩

theorem spLe_pos {k : Nat} {sp : Sp} (h : SpLe k sp) :
    1 ≤ sp.d ∧ 1 ≤ sp.h ∧ 1 ≤ sp.w := by
  have h1 : 1 ≤ 2 ^ k := Nat.one_le_two_pow
  exact ⟨le_trans h1 h.1, le_trans h1 h.2.1, le_trans h1 h.2.2⟩

theorem shr_pos {k : Nat} {sp : Sp} (h : SpLe k sp) :
    1 ≤ (shr k sp).d ∧ 1 ≤ (shr k sp).h ∧ 1 ≤ (shr k sp).w := by
  have hp : 0 < 2 ^ k := Nat.pos_pow_of_pos k (by norm_num)
  refine ⟨?_, ?_, ?_⟩ <;> simp only [shr] <;>
    exact (Nat.one_le_div_iff hp).mpr (by first | exact h.1 | exact h.2.1 | exact h.2.2)

theorem dvd_shr_dbl {a k : Nat} (h : 2 ^ (k + 1) ∣ a) : a / 2 ^ k = (a / 2 ^ (k + 1)) * 2 := by
  obtain ⟨c, hc⟩ := h
  subst hc
  rw [Nat.mul_div_cancel_left _ (Nat.pos_pow_of_pos (k + 1) (by norm_num))]
  rw [pow_succ]
  rw [show 2 ^ k * 2 * c = 2 ^ k * (c * 2) by ring]
  rw [Nat.mul_div_cancel_left _ (Nat.pos_pow_of_pos k (by norm_num))]

theorem shr_dbl {k : Nat} {sp : Sp} (h : SpDvd (k + 1) sp) :
    shr k sp = dbl (shr (k + 1) sp) := by
  simp only [shr, dbl, Sp.mk.injEq]
  exact ⟨dvd_shr_dbl h.1, dvd_shr_dbl h.2.1, dvd_shr_dbl h.2.2⟩

theorem skipList_length (nfeat : List Nat) (n : Nat) :
    ∀ (fuel i : Nat) (sp : Sp), (skipList nfeat n i fuel sp).length = fuel := by
  intro fuel
  induction fuel with
  | zero => intro i sp; rfl
  | succ f ih => intro i sp; simp [skipList, ih]

theorem skipList_snoc (nfeat : List Nat) (n : Nat) :
    ∀ (fuel i : Nat) (sp : Sp),
      skipList nfeat n i (fuel + 1) sp =
        skipList nfeat n i fuel sp ++ [⟨n, nfeat.getD (i + fuel) 0, shr fuel sp⟩] := by
  intro fuel
  induction fuel with
  | zero =>
      intro i sp
      simp [skipList, shr_zero]
  | succ f ih =>
      intro i sp
      rw [show skipList nfeat n i (f + 1 + 1) sp =
            ⟨n, nfeat.getD i 0, sp⟩ :: skipList nfeat n (i + 1) (f + 1) (half sp) from rfl]
      rw [ih (i + 1) (half sp)]
      rw [show skipList nfeat n i (f + 1) sp =
            ⟨n, nfeat.getD i 0, sp⟩ :: skipList nfeat n (i + 1) f (half sp) from rfl]
      simp [shr_half, Nat.add_assoc, Nat.add_comm 1 f]

theorem skipList_getD (nfeat : List Nat) (n : Nat) :
    ∀ (fuel i j : Nat) (sp : Sp), j < fuel →
      (skipList nfeat n i fuel sp).getD j ⟨0, 0, ⟨0, 0, 0⟩⟩ =
        ⟨n, nfeat.getD (i + j) 0, shr j sp⟩ := by
  intro fuel
  induction fuel with
  | zero => intro i j sp hj; omega
  | succ f ih =>
      intro i j sp hj
      cases j with
      | zero => simp [skipList, shr_zero]
      | succ j' =>
          have hj' : j' < f := by omega
          rw [show skipList nfeat n i (f + 1) sp =
                ⟨n, nfeat.getD i 0, sp⟩ :: skipList nfeat n (i + 1) f (half sp) from rfl]
          rw [show (⟨n, nfeat.getD i 0, sp⟩ :: skipList nfeat n (i + 1) f (half sp)).getD
                (j' + 1) ⟨0, 0, ⟨0, 0, 0⟩⟩ =
                (skipList nfeat n (i + 1) f (half sp)).getD j' ⟨0, 0, ⟨0, 0, 0⟩⟩ from rfl]
          rw [ih (i + 1) j' (half sp) hj']
          rw [shr_half]
          congr 2
          omega

/-
  Evaluation lemmas for the individual modules.
-/

theorem Conv.init_false_eq (inC outC : Nat) (ks st pd : Sp) (w : World) :
    Conv.init inC outC ks st pd false w =
      .ok (⟨inC, outC, ks, st, pd, bk w.mode, w.rng⟩, ⟨w.mode, w.rng + 1⟩) := rfl

theorem Conv.init_true_eq (inC outC : Nat) (ks st pd : Sp) (w : World) :
    Conv.init inC outC ks st pd true w = .error .attributeError := rfl

/-- A stride-1 convolution with odd kernel extent and matching same
padding preserves a positive extent. -/
theorem convDim_odd {i k : Nat} (hk : k % 2 = 1) (hi : 1 ≤ i) :
    convDim i k 1 (k / 2) = .ok i := by
  unfold convDim
  rw [if_pos]
  · congr 1
    omega
  · exact ⟨le_refl 1, by omega⟩

theorem bcast_self (a : Nat) : bcast a a = .ok a := by
  simp [bcast]

theorem addShape_self (t : TShape) : addShape t t = .ok t := by
  simp [addShape, bcast_self, Bind.bind, Except.bind]

theorem residualSumS_self (t : TShape) (r : Bool) : residualSumS t t r = .ok t := by
  cases r <;> simp [residualSumS, addShape_self]

theorem batchnorm_apply (n outC : Nat) (sp : Sp) (useBn : Bool) :
    (batchnorm outC useBn).apply ⟨n, outC, sp⟩ = .ok ⟨n, outC, sp⟩ := by
  cases useBn <;> simp [batchnorm, NormGate.apply]

/-- Forward of a Conv with kernel (3,3,3), stride 1 and padding (1,1,1)
on a positive shape with matching channels. -/
theorem Conv.forward3 {inC outC : Nat} {bkd : Backend} {sd : Nat} {t : TShape}
    (hc : t.c = inC) (h1 : 1 ≤ t.sp.d) (h2 : 1 ≤ t.sp.h) (h3 : 1 ≤ t.sp.w) :
    Conv.forward ⟨inC, outC, ⟨3, 3, 3⟩, ⟨1, 1, 1⟩, ⟨1, 1, 1⟩, bkd, sd⟩ t
      = .ok ⟨t.n, outC, t.sp⟩ := by
  have e1 : convDim t.sp.d 3 1 1 = .ok t.sp.d := convDim_odd (by norm_num) h1
  have e2 : convDim t.sp.h 3 1 1 = .ok t.sp.h := convDim_odd (by norm_num) h2
  have e3 : convDim t.sp.w 3 1 1 = .ok t.sp.w := convDim_odd (by norm_num) h3
  simp [Conv.forward, convSp, hc, e1, e2, e3, Bind.bind, Except.bind, Except.map]

/-- Forward of a Conv with kernel (1,5,5), stride 1 and padding (0,2,2). -/
theorem Conv.forward155 {inC outC : Nat} {bkd : Backend} {sd : Nat} {t : TShape}
    (hc : t.c = inC) (h1 : 1 ≤ t.sp.d) (h2 : 1 ≤ t.sp.h) (h3 : 1 ≤ t.sp.w) :
    Conv.forward ⟨inC, outC, ⟨1, 5, 5⟩, ⟨1, 1, 1⟩, ⟨0, 2, 2⟩, bkd, sd⟩ t
      = .ok ⟨t.n, outC, t.sp⟩ := by
  have e1 : convDim t.sp.d 1 1 0 = .ok t.sp.d := convDim_odd (by norm_num) h1
  have e2 : convDim t.sp.h 5 1 2 = .ok t.sp.h := convDim_odd (by norm_num) h2
  have e3 : convDim t.sp.w 5 1 2 = .ok t.sp.w := convDim_odd (by norm_num) h3
  simp [Conv.forward, convSp, hc, e1, e2, e3, Bind.bind, Except.bind, Except.map]

/-- Forward of a 1x1x1 Conv with stride 1 and no padding. -/
theorem Conv.forward111 {inC outC : Nat} {bkd : Backend} {sd : Nat} {t : TShape}
    (hc : t.c = inC) (h1 : 1 ≤ t.sp.d) (h2 : 1 ≤ t.sp.h) (h3 : 1 ≤ t.sp.w) :
    Conv.forward ⟨inC, outC, ⟨1, 1, 1⟩, ⟨1, 1, 1⟩, ⟨0, 0, 0⟩, bkd, sd⟩ t
      = .ok ⟨t.n, outC, t.sp⟩ := by
  have e1 : convDim t.sp.d 1 1 0 = .ok t.sp.d := convDim_odd (by norm_num) h1
  have e2 : convDim t.sp.h 1 1 0 = .ok t.sp.h := convDim_odd (by norm_num) h2
  have e3 : convDim t.sp.w 1 1 0 = .ok t.sp.w := convDim_odd (by norm_num) h3
  simp [Conv.forward, convSp, hc, e1, e2, e3, Bind.bind, Except.bind, Except.map]

theorem ConvMod.init3_eq (inC outC : Nat) (resid : Bool) (w : World) :
    ConvMod.init inC outC (.seq [3, 3, 3]) resid true w =
      .ok (⟨⟨inC, outC, ⟨3, 3, 3⟩, ⟨1, 1, 1⟩, ⟨1, 1, 1⟩, bk w.mode, w.rng⟩,
            ⟨outC, outC, ⟨3, 3, 3⟩, ⟨1, 1, 1⟩, ⟨1, 1, 1⟩, bk w.mode, w.rng + 1⟩,
            ⟨outC, outC, ⟨3, 3, 3⟩, ⟨1, 1, 1⟩, ⟨1, 1, 1⟩, bk w.mode, w.rng + 1 + 1⟩,
            .bn outC, .bn outC, .bn outC, resid⟩,
           ⟨w.mode, w.rng + 1 + 1 + 1⟩) := rfl

theorem ConvMod.init3_false_eq (inC outC : Nat) (resid : Bool) (w : World) :
    ConvMod.init inC outC (.seq [3, 3, 3]) resid false w = .error .attributeError := rfl

/-- A ConvMod built with kernel (3,3,3) maps a positive shape with the
right channel count to the same shape with out_channels channels. -/
theorem ConvMod.forward3_eq {inC outC : Nat} {resid useBn : Bool} {w w' : World}
    {m : ConvMod} (h : ConvMod.init inC outC (.seq [3, 3, 3]) resid useBn w = .ok (m, w'))
    {t : TShape} (hc : t.c = inC) (h1 : 1 ≤ t.sp.d) (h2 : 1 ≤ t.sp.h) (h3 : 1 ≤ t.sp.w) :
    m.forward t = .ok ⟨t.n, outC, t.sp⟩ := by
  cases useBn with
  | false =>
      rw [ConvMod.init3_false_eq] at h
      exact absurd h (by simp)
  | true =>
      rw [ConvMod.init3_eq] at h
      simp only [Except.ok.injEq, Prod.mk.injEq] at h
      obtain ⟨hm, -⟩ := h
      subst hm
      have e1 : Conv.forward ⟨inC, outC, ⟨3, 3, 3⟩, ⟨1, 1, 1⟩, ⟨1, 1, 1⟩, bk w.mode, w.rng⟩ t
          = .ok ⟨t.n, outC, t.sp⟩ := Conv.forward3 hc h1 h2 h3
      have e2 : Conv.forward
          ⟨outC, outC, ⟨3, 3, 3⟩, ⟨1, 1, 1⟩, ⟨1, 1, 1⟩, bk w.mode, w.rng + 1⟩
          (⟨t.n, outC, t.sp⟩ : TShape) = .ok ⟨t.n, outC, t.sp⟩ :=
        Conv.forward3 rfl h1 h2 h3
      have e3 : Conv.forward
          ⟨outC, outC, ⟨3, 3, 3⟩, ⟨1, 1, 1⟩, ⟨1, 1, 1⟩, bk w.mode, w.rng + 1 + 1⟩
          (⟨t.n, outC, t.sp⟩ : TShape) = .ok ⟨t.n, outC, t.sp⟩ :=
        Conv.forward3 rfl h1 h2 h3
      simp [ConvMod.forward, e1, e2, e3, NormGate.apply, actShape,
        residualSumS_self, Bind.bind, Except.bind]

/-
  The fixed module-level sizes list.
-/

theorem sizes_length : sizes.length = 5 := rfl

theorem sizes_getElem? (i : Nat) :
    sizes[i]? = if i < 5 then some (.seq [3, 3, 3]) else none := by
  match i with
  | 0 => rfl
  | 1 => rfl
  | 2 => rfl
  | 3 => rfl
  | 4 => rfl
  | n + 5 =>
      rw [if_neg (by omega)]
      rfl

theorem liftIdx_ok {α : Type} {o : Option α} {a : α} :
    liftIdx o = .ok a ↔ o = some a := by
  cases o <;> simp [liftIdx]

theorem liftIdx_some {α : Type} {o : Option α} {a : α} (h : o = some a) :
    liftIdx o = .ok a := by
  rw [h]; rfl

theorem sizes_liftIdx_lt {i : Nat} (h : i < 5) :
    liftIdx sizes[i]? = .ok (.seq [3, 3, 3]) := by
  rw [sizes_getElem?, if_pos h]; rfl

theorem sizes_liftIdx_ge {i : Nat} (h : 5 ≤ i) :
    liftIdx sizes[i]? = .error .indexError := by
  rw [sizes_getElem?, if_neg (by omega)]; rfl

theorem sizes_liftIdx_inv {i : Nat} {ks : PyVal} (h : liftIdx sizes[i]? = .ok ks) :
    ks = .seq [3, 3, 3] ∧ i < 5 := by
  rw [sizes_getElem?] at h
  by_cases hi : i < 5
  · rw [if_pos hi] at h
    exact ⟨by cases (liftIdx_ok.mp h); rfl, hi⟩
  · rw [if_neg hi] at h
    exact absurd h (by simp [liftIdx])

theorem getD_of_getElem? {l : List Nat} {i a : Nat} (h : l[i]? = some a) :
    l.getD i 0 = a := by
  simp [List.getD_eq_getElem?_getD, h]

/-
  Pooling and upsampling on even extents.
-/

theorem poolDim_div {i : Nat} (hd : 2 ∣ i) (hl : 2 ≤ i) : poolDim i 2 = .ok (i / 2) := by
  unfold poolDim
  rw [if_pos ⟨by norm_num, hl⟩]
  congr 1
  omega

theorem maxPool_half {t : TShape} (hd : SpDvd 1 t.sp) (hl : SpLe 1 t.sp) :
    maxPool ⟨2, 2, 2⟩ t = .ok ⟨t.n, t.c, half t.sp⟩ := by
  have d1 := hd.1
  have d2 := hd.2.1
  have d3 := hd.2.2
  have l1 := hl.1
  have l2 := hl.2.1
  have l3 := hl.2.2
  rw [pow_one] at d1 d2 d3 l1 l2 l3
  have e1 := poolDim_div d1 l1
  have e2 := poolDim_div d2 l2
  have e3 := poolDim_div d3 l3
  simp [maxPool, e1, e2, e3, half, Bind.bind, Except.bind]

theorem convTDim2 {i : Nat} (hi : 1 ≤ i) : convTDim i 2 2 0 0 = .ok (i * 2) := by
  unfold convTDim
  rw [if_pos]
  · congr 1
    omega
  · exact ⟨by norm_num, hi, Or.inr rfl, by omega⟩

theorem UpsampleMod.init_bilinear_eq (inC outC : Nat) (useBn : Bool) (w : World) :
    UpsampleMod.init inC outC (.scalar 2) "bilinear" useBn w =
      .ok (⟨.interp ⟨2, 2, 2⟩,
            some ⟨inC, outC, ⟨1, 1, 1⟩, ⟨1, 1, 1⟩, ⟨0, 0, 0⟩, bk w.mode, w.rng⟩,
            batchnorm outC useBn⟩, ⟨w.mode, w.rng + 1⟩) := rfl

theorem UpsampleMod.init_nearest_eq (inC outC : Nat) (useBn : Bool) (w : World) :
    UpsampleMod.init inC outC (.scalar 2) "nearest" useBn w =
      .ok (⟨.interp ⟨2, 2, 2⟩,
            some ⟨inC, outC, ⟨1, 1, 1⟩, ⟨1, 1, 1⟩, ⟨0, 0, 0⟩, bk w.mode, w.rng⟩,
            batchnorm outC useBn⟩, ⟨w.mode, w.rng + 1⟩) := rfl

theorem UpsampleMod.init_transpose_eq (inC outC : Nat) (useBn : Bool) (w : World) :
    UpsampleMod.init inC outC (.scalar 2) "transpose" useBn w =
      .ok (⟨.tconv ⟨inC, outC, ⟨2, 2, 2⟩, ⟨2, 2, 2⟩, ⟨0, 0, 0⟩, ⟨0, 0, 0⟩, w.rng, false⟩,
            none, batchnorm outC useBn⟩, ⟨w.mode, w.rng + 1⟩) := rfl

theorem UpsampleMod.init_unknown {inC outC : Nat} {upArg : PyVal} {mode : String}
    {useBn : Bool} {w : World} (h1 : mode ≠ "bilinear") (h2 : mode ≠ "nearest")
    (h3 : mode ≠ "transpose") :
    UpsampleMod.init inC outC upArg mode useBn w = .error .assertError := by
  unfold UpsampleMod.init
  rw [if_neg h1, if_neg h2, if_neg h3]

/-- A built UpsampleMod (any of the three modes, scale 2) doubles every
spatial extent and produces out_channels channels; applied together with
a skip of exactly that doubled shape, the fusion succeeds and the output
equals the skip shape. -/
theorem UpsampleMod.forward_dbl {inC outC : Nat} {upm : String} {useBn : Bool}
    {w w' : World} {m : UpsampleMod}
    (h : UpsampleMod.init inC outC (.scalar 2) upm useBn w = .ok (m, w'))
    {t : TShape} (hc : t.c = inC) (h1 : 1 ≤ t.sp.d) (h2 : 1 ≤ t.sp.h) (h3 : 1 ≤ t.sp.w) :
    m.forward t ⟨t.n, outC, dbl t.sp⟩ = .ok ⟨t.n, outC, dbl t.sp⟩ := by
  by_cases hb : upm = "bilinear"
  · subst hb
    rw [UpsampleMod.init_bilinear_eq] at h
    simp only [Except.ok.injEq, Prod.mk.injEq] at h
    obtain ⟨hm, -⟩ := h
    subst hm
    have ec : Conv.forward ⟨inC, outC, ⟨1, 1, 1⟩, ⟨1, 1, 1⟩, ⟨0, 0, 0⟩, bk w.mode, w.rng⟩
        (⟨t.n, t.c, ⟨t.sp.d * 2, t.sp.h * 2, t.sp.w * 2⟩⟩ : TShape)
        = .ok ⟨t.n, outC, ⟨t.sp.d * 2, t.sp.h * 2, t.sp.w * 2⟩⟩ :=
      Conv.forward111 hc (by show 1 ≤ t.sp.d * 2; omega) (by show 1 ≤ t.sp.h * 2; omega)
        (by show 1 ≤ t.sp.w * 2; omega)
    simp only [dbl]
    simp [UpsampleMod.forward, UpLayer.apply, UpsampleMod.convApply, ec,
      addShape_self, batchnorm_apply, actShape, Bind.bind, Except.bind]
  · by_cases hn : upm = "nearest"
    · subst hn
      rw [UpsampleMod.init_nearest_eq] at h
      simp only [Except.ok.injEq, Prod.mk.injEq] at h
      obtain ⟨hm, -⟩ := h
      subst hm
      have ec : Conv.forward ⟨inC, outC, ⟨1, 1, 1⟩, ⟨1, 1, 1⟩, ⟨0, 0, 0⟩, bk w.mode, w.rng⟩
          (⟨t.n, t.c, ⟨t.sp.d * 2, t.sp.h * 2, t.sp.w * 2⟩⟩ : TShape)
          = .ok ⟨t.n, outC, ⟨t.sp.d * 2, t.sp.h * 2, t.sp.w * 2⟩⟩ :=
        Conv.forward111 hc (by show 1 ≤ t.sp.d * 2; omega) (by show 1 ≤ t.sp.h * 2; omega)
          (by show 1 ≤ t.sp.w * 2; omega)
      simp only [dbl]
      simp [UpsampleMod.forward, UpLayer.apply, UpsampleMod.convApply, ec,
        addShape_self, batchnorm_apply, actShape, Bind.bind, Except.bind]
    · by_cases ht : upm = "transpose"
      · subst ht
        rw [UpsampleMod.init_transpose_eq] at h
        simp only [Except.ok.injEq, Prod.mk.injEq] at h
        obtain ⟨hm, -⟩ := h
        subst hm
        have e1 := convTDim2 h1
        have e2 := convTDim2 h2
        have e3 := convTDim2 h3
        simp [UpsampleMod.forward, UpLayer.apply, ConvT.forward, convTSp, hc,
          e1, e2, e3, UpsampleMod.convApply, dbl, addShape_self, batchnorm_apply,
          actShape, Bind.bind, Except.bind, Except.map]
      · rw [UpsampleMod.init_unknown hb hn ht] at h
        exact absurd h (by simp)

/-
  Embedding and output modules.
-/

theorem EmbeddingMod.init_s1_eq (inC outC : Nat) (w : World) :
    EmbeddingMod.init inC outC embed_ks (.scalar 1) w =
      .ok (⟨⟨inC, outC, ⟨1, 5, 5⟩, ⟨1, 1, 1⟩, ⟨0, 2, 2⟩, bk w.mode, w.rng⟩⟩,
           ⟨w.mode, w.rng + 1⟩) := rfl

/-- Forward of an EmbeddingMod with the module-level kernel (1,5,5) and
unit stride: shape preserved, channels lifted. -/
theorem EmbeddingMod.forward_155_s1 {inC outC : Nat} {bkd : Backend} {sd : Nat}
    {t : TShape} (hc : t.c = inC) (h1 : 1 ≤ t.sp.d) (h2 : 1 ≤ t.sp.h) (h3 : 1 ≤ t.sp.w) :
    EmbeddingMod.forward ⟨⟨inC, outC, ⟨1, 5, 5⟩, ⟨1, 1, 1⟩, ⟨0, 2, 2⟩, bkd, sd⟩⟩ t
      = .ok ⟨t.n, outC, t.sp⟩ := by
  have ec := @Conv.forward155 inC outC bkd sd t hc h1 h2 h3
  simp [EmbeddingMod.forward, ec, actShape, Except.map]

theorem OutputMod.init_eq (inC outC : Nat) (w : World) :
    OutputMod.init inC outC w =
      .ok (⟨⟨inC, outC, ⟨1, 1, 1⟩, ⟨1, 1, 1⟩, ⟨0, 0, 0⟩, bk w.mode, w.rng⟩⟩,
           ⟨w.mode, w.rng + 1⟩) := rfl

theorem OutputMod.forward_eq {inC outC : Nat} {bkd : Backend} {sd : Nat} {t : TShape}
    (hc : t.c = inC) (h1 : 1 ≤ t.sp.d) (h2 : 1 ≤ t.sp.h) (h3 : 1 ≤ t.sp.w) :
    OutputMod.forward ⟨⟨inC, outC, ⟨1, 1, 1⟩, ⟨1, 1, 1⟩, ⟨0, 0, 0⟩, bkd, sd⟩⟩ t
      = .ok ⟨t.n, outC, t.sp⟩ := by
  have ec := @Conv.forward111 inC outC bkd sd t hc h1 h2 h3
  simp [OutputMod.forward, ec]

/-
  Running the contracting path of a built network.
-/

/-- If the contracting loop of the constructor succeeded, then on any
input whose spatial extents are divisible by 2 ^ depth (and at least
that large) the contracting half of the forward pass succeeds, halves
the spatial shape once per stage, and records exactly the skip list
skipList (one skip per stage, channels nfeat[i + j], spatial shape
halved j times at stage j). -/
theorem contract_run {resid useBn : Bool} {nfeat : List Nat} :
    ∀ {fuel i inC : Nat} {w w' : World} {cms : List ConvMod} {ps : List Sp} {cOut : Nat},
      buildContract resid useBn nfeat i fuel inC w = .ok (cms, ps, cOut, w') →
      ∀ {n : Nat} {sp : Sp}, SpDvd fuel sp → SpLe fuel sp →
        contractSteps (cms.zip ps) ⟨n, inC, sp⟩
          = .ok (⟨n, cOut, shr fuel sp⟩, skipList nfeat n i fuel sp) := by
  intro fuel
  induction fuel with
  | zero =>
      intro i inC w w' cms ps cOut h n sp _ _
      simp only [buildContract, Except.ok.injEq, Prod.mk.injEq] at h
      obtain ⟨h1, h2, h3, -⟩ := h
      subst h1; subst h2; subst h3
      simp [contractSteps, skipList, shr_zero]
  | succ f ih =>
      intro i inC w w' cms ps cOut h n sp hdv hle
      simp only [buildContract] at h
      obtain ⟨fs, hfs, h⟩ := exBind_ok.mp h
      obtain ⟨ks, hks, h⟩ := exBind_ok.mp h
      obtain ⟨⟨cm, w1⟩, hcm, h⟩ := exBind_ok.mp h
      obtain ⟨⟨cms', ps', c', w2⟩, hrec, h⟩ := exBind_ok.mp h
      simp only [Except.ok.injEq, Prod.mk.injEq] at h
      obtain ⟨h1, h2, h3, -⟩ := h
      subst h1; subst h2; subst h3
      obtain ⟨hks3, -⟩ := sizes_liftIdx_inv hks
      subst hks3
      have hpos := spLe_pos hle
      have hy : cm.forward ⟨n, inC, sp⟩ = .ok ⟨n, fs, sp⟩ :=
        ConvMod.forward3_eq hcm rfl hpos.1 hpos.2.1 hpos.2.2
      have hz : maxPool ⟨2, 2, 2⟩ (⟨n, fs, sp⟩ : TShape) = .ok ⟨n, fs, half sp⟩ :=
        maxPool_half (spDvd_mono (by omega) hdv) (spLe_mono (by omega) hle)
      have hr := @ih (i + 1) fs ((cm, w1).2) w2 cms' ps' c' hrec n (half sp)
        (spDvd_half hdv) (spLe_half hle)
      have hch : nfeat.getD i 0 = fs := getD_of_getElem? (liftIdx_ok.mp hfs)
      have hskl : skipList nfeat n i (f + 1) sp =
          ⟨n, fs, sp⟩ :: skipList nfeat n (i + 1) f (half sp) := by
        rw [show skipList nfeat n i (f + 1) sp =
              ⟨n, nfeat.getD i 0, sp⟩ :: skipList nfeat n (i + 1) f (half sp) from rfl]
        rw [hch]
      simp only [List.zip_cons_cons, contractSteps, hy, hz, Bind.bind, Except.bind]
      have hr2 : contractSteps (List.zipWith Prod.mk cms' ps') ⟨n, fs, half sp⟩
          = Except.ok (⟨n, c', shr (f + 1) sp⟩, skipList nfeat n (i + 1) f (half sp)) := by
        rw [← shr_half]
        exact hr
      simp only [hr2]
      rw [hskl]

/-
  Running the expanding path of a built network.
-/

/-- If the expanding loop of the constructor succeeded (with in_channels
entering it equal to the channel count the bridge produced), then on the
bridge output shape the expanding half of the forward pass consumes the
recorded skips in reverse order, doubles the spatial shape at each
stage so that it matches the consumed skip exactly, and ends at the full
spatial shape with the channel count of the shallowest stage. -/
theorem expand_run {resid : Bool} {upm : String} {useBn : Bool} {nfeat : List Nat}
    {n : Nat} {spTop : Sp} :
    ∀ {d inC : Nat} {w w' : World} {ups : List UpsampleMod} {dcs : List ConvMod} {cF : Nat},
      buildExpand resid upm useBn nfeat d inC w = .ok (ups, dcs, cF, w') →
      SpDvd d spTop → SpLe d spTop →
      expandSteps (ups.zip (dcs.zip (skipList nfeat n 0 d spTop).reverse))
          ⟨n, inC, shr d spTop⟩
        = .ok ⟨n, cF, spTop⟩ := by
  intro d
  induction d with
  | zero =>
      intro inC w w' ups dcs cF h _ _
      simp only [buildExpand, Except.ok.injEq, Prod.mk.injEq] at h
      obtain ⟨h1, h2, h3, -⟩ := h
      subst h1; subst h2; subst h3
      simp [skipList, expandSteps, shr_zero]
  | succ d ih =>
      intro inC w w' ups dcs cF h hdv hle
      simp only [buildExpand] at h
      obtain ⟨fs, hfs, h⟩ := exBind_ok.mp h
      obtain ⟨ks, hks, h⟩ := exBind_ok.mp h
      obtain ⟨⟨um, w1⟩, hum, h⟩ := exBind_ok.mp h
      obtain ⟨⟨dm, w2⟩, hdm, h⟩ := exBind_ok.mp h
      obtain ⟨⟨ups', dcs', c', w3⟩, hrec, h⟩ := exBind_ok.mp h
      simp only [Except.ok.injEq, Prod.mk.injEq] at h
      obtain ⟨h1, h2, h3, -⟩ := h
      subst h1; subst h2; subst h3
      obtain ⟨hks3, -⟩ := sizes_liftIdx_inv hks
      subst hks3
      have hch : nfeat.getD d 0 = fs := getD_of_getElem? (liftIdx_ok.mp hfs)
      -- the reversed skip list starts with the deepest recorded skip
      have hrev : (skipList nfeat n 0 (d + 1) spTop).reverse =
          ⟨n, nfeat.getD d 0, shr d spTop⟩ :: (skipList nfeat n 0 d spTop).reverse := by
        rw [skipList_snoc]
        simp
      have hposd := shr_pos (spLe_mono (le_refl (d + 1)) hle)
      have hup : um.forward ⟨n, inC, shr (d + 1) spTop⟩
          ⟨n, fs, dbl (shr (d + 1) spTop)⟩ = .ok ⟨n, fs, dbl (shr (d + 1) spTop)⟩ :=
        UpsampleMod.forward_dbl hum rfl hposd.1 hposd.2.1 hposd.2.2
      have hskip_eq : shr d spTop = dbl (shr (d + 1) spTop) := shr_dbl hdv
      have hposd' := shr_pos (spLe_mono (by omega) hle : SpLe d spTop)
      have hdconv : dm.forward ⟨n, fs, shr d spTop⟩ = .ok ⟨n, fs, shr d spTop⟩ :=
        ConvMod.forward3_eq hdm rfl hposd'.1 hposd'.2.1 hposd'.2.2
      have hr := ih hrec (spDvd_mono (by omega) hdv) (spLe_mono (by omega) hle)
      have hup' : um.forward ⟨n, inC, shr (d + 1) spTop⟩ ⟨n, nfeat.getD d 0, shr d spTop⟩
          = .ok ⟨n, fs, shr d spTop⟩ := by
        rw [hch, hskip_eq]
        exact hup
      rw [hrev]
      simp only [List.zip_cons_cons, expandSteps, Bind.bind, Except.bind, hup', hdconv]
      exact hr

/-- Elementwise characterization of the expanding stages: the module
stored at position t of the descending list (that is, expanding stage
d - 1 - t) was built to lift nfeat[d - t] channels at the spatial shape
halved (d - t) times into nfeat[d - 1 - t] channels at the spatial
shape halved (d - 1 - t) times, matching the recorded skip of
contracting stage d - 1 - t exactly. -/
theorem expand_stages {resid : Bool} {upm : String} {useBn : Bool} {nfeat : List Nat} :
    ∀ {d inC : Nat} {w w' : World} {ups : List UpsampleMod} {dcs : List ConvMod} {cF : Nat},
      buildExpand resid upm useBn nfeat d inC w = .ok (ups, dcs, cF, w') →
      inC = nfeat.getD d 0 →
      ups.length = d ∧ dcs.length = d ∧
      ∀ (n t : Nat) (spTop : Sp), t < d → SpDvd d spTop → SpLe d spTop →
        (ups.getD t upDflt).forward
            ⟨n, nfeat.getD (d - t) 0, shr (d - t) spTop⟩
            ⟨n, nfeat.getD (d - 1 - t) 0, shr (d - 1 - t) spTop⟩
          = .ok ⟨n, nfeat.getD (d - 1 - t) 0, shr (d - 1 - t) spTop⟩ := by
  intro d
  induction d with
  | zero =>
      intro inC w w' ups dcs cF h _
      simp only [buildExpand, Except.ok.injEq, Prod.mk.injEq] at h
      obtain ⟨h1, h2, -, -⟩ := h
      subst h1; subst h2
      exact ⟨rfl, rfl, by intro n t spTop ht; omega⟩
  | succ d ih =>
      intro inC w w' ups dcs cF h hin
      simp only [buildExpand] at h
      obtain ⟨fs, hfs, h⟩ := exBind_ok.mp h
      obtain ⟨ks, hks, h⟩ := exBind_ok.mp h
      obtain ⟨⟨um, w1⟩, hum, h⟩ := exBind_ok.mp h
      obtain ⟨⟨dm, w2⟩, hdm, h⟩ := exBind_ok.mp h
      obtain ⟨⟨ups', dcs', c', w3⟩, hrec, h⟩ := exBind_ok.mp h
      simp only [Except.ok.injEq, Prod.mk.injEq] at h
      obtain ⟨h1, h2, -, -⟩ := h
      subst h1; subst h2
      have hch : nfeat.getD d 0 = fs := getD_of_getElem? (liftIdx_ok.mp hfs)
      have hihres := ih hrec hch.symm
      refine ⟨by simp [hihres.1], by simp [hihres.2.1], ?_⟩
      intro n t spTop ht hdv hle
      cases t with
      | zero =>
          have e0 : (d + 1 - 0) = d + 1 := rfl
          have e1 : (d + 1 - 1 - 0) = d := rfl
          rw [e0, e1]
          have hposd := shr_pos (spLe_mono (le_refl (d + 1)) hle)
          have hskip_eq : shr d spTop = dbl (shr (d + 1) spTop) := shr_dbl hdv
          rw [show (um :: ups').getD 0 upDflt = um from rfl]
          rw [hch, hskip_eq, ← hin]
          exact UpsampleMod.forward_dbl hum rfl hposd.1 hposd.2.1 hposd.2.2
      | succ t =>
          have ht' : t < d := by omega
          have e0 : d + 1 - (t + 1) = d - t := by omega
          have e1 : d + 1 - 1 - (t + 1) = d - 1 - t := by omega
          rw [e0, e1]
          rw [show (um :: ups').getD (t + 1) upDflt = ups'.getD t upDflt from rfl]
          exact hihres.2.2 n t spTop ht' (spDvd_mono (by omega) hdv)
            (spLe_mono (by omega) hle)

/-
  Construction: success and failure.
-/

theorem liftIdx_getD {l : List Nat} {i : Nat} (h : i < l.length) :
    liftIdx l[i]? = .ok (l.getD i 0) := by
  rw [List.getD_eq_getElem?_getD]
  cases he : l[i]? with
  | none =>
      rw [List.getElem?_eq_none_iff] at he
      omega
  | some a => rfl

theorem ConvMod.init3_ok (inC outC : Nat) (resid : Bool) (w : World) :
    ∃ m w', ConvMod.init inC outC (.seq [3, 3, 3]) resid true w = .ok (m, w') :=
  ⟨_, _, ConvMod.init3_eq inC outC resid w⟩

theorem upsampleMod_init_ok (inC outC : Nat) (upm : String) (useBn : Bool) (w : World)
    (hm : upm = "bilinear" ∨ upm = "nearest" ∨ upm = "transpose") :
    ∃ m w', UpsampleMod.init inC outC (.scalar 2) upm useBn w = .ok (m, w') := by
  rcases hm with hm | hm | hm <;> subst hm
  · exact ⟨_, _, UpsampleMod.init_bilinear_eq inC outC useBn w⟩
  · exact ⟨_, _, UpsampleMod.init_nearest_eq inC outC useBn w⟩
  · exact ⟨_, _, UpsampleMod.init_transpose_eq inC outC useBn w⟩

theorem embeddingMod_init_ok (inC outC : Nat) (istr : PyVal) (w : World)
    (hi : istrOkB istr = true) :
    ∃ e w', EmbeddingMod.init inC outC embed_ks istr w = .ok (e, w') := by
  match istr, hi with
  | .scalar k, _ => exact ⟨_, _, rfl⟩
  | .seq [a, b, c], _ => exact ⟨_, _, rfl⟩

theorem embeddingModUP_init_ok (inC outC : Nat) (istr : PyVal) (w : World)
    (hi : istrOkB istr = true) :
    ∃ e w', EmbeddingModUP.init inC outC embed_ks istr w = .ok (e, w') := by
  match istr, hi with
  | .scalar k, _ => exact ⟨_, _, rfl⟩
  | .seq [a, b, c], _ => exact ⟨_, _, rfl⟩

/-- The contracting loop succeeds whenever every index it touches is
inside both the schedule and the fixed sizes list, and then it builds
exactly one ConvMod and one pooling stage per iteration. -/
theorem buildContract_ok {resid : Bool} {nfeat : List Nat} :
    ∀ (fuel i inC : Nat) (w : World), i + fuel ≤ nfeat.length → i + fuel ≤ 5 →
      ∃ cms ps c w', buildContract resid true nfeat i fuel inC w = .ok (cms, ps, c, w') ∧
        cms.length = fuel ∧ ps.length = fuel := by
  intro fuel
  induction fuel with
  | zero =>
      intro i inC w _ _
      exact ⟨[], [], inC, w, rfl, rfl, rfl⟩
  | succ f ih =>
      intro i inC w hlen h5
      have hfs := liftIdx_getD (l := nfeat) (i := i) (by omega)
      have hks := sizes_liftIdx_lt (i := i) (by omega)
      obtain ⟨m, w1, hcm⟩ := ConvMod.init3_ok inC (nfeat.getD i 0) resid w
      obtain ⟨cms', ps', c', w2, hrec, hl1, hl2⟩ :=
        ih (i + 1) (nfeat.getD i 0) w1 (by omega) (by omega)
      refine ⟨m :: cms', ⟨2, 2, 2⟩ :: ps', c', w2, ?_, by simp [hl1], by simp [hl2]⟩
      simp only [buildContract, hfs, hks, hcm, hrec, Bind.bind, Except.bind]

/-- The expanding loop succeeds under the same index conditions and
builds exactly one UpsampleMod and one ConvMod per iteration. -/
theorem buildExpand_ok {resid : Bool} {upm : String} {nfeat : List Nat}
    (hm : upm = "bilinear" ∨ upm = "nearest" ∨ upm = "transpose") :
    ∀ (d inC : Nat) (w : World), d ≤ nfeat.length → d ≤ 5 →
      ∃ ups dcs c w', buildExpand resid upm true nfeat d inC w = .ok (ups, dcs, c, w') ∧
        ups.length = d ∧ dcs.length = d := by
  intro d
  induction d with
  | zero =>
      intro inC w _ _
      exact ⟨[], [], inC, w, rfl, rfl, rfl⟩
  | succ d ih =>
      intro inC w hlen h5
      have hfs := liftIdx_getD (l := nfeat) (i := d) (by omega)
      have hks := sizes_liftIdx_lt (i := d) (by omega)
      obtain ⟨um, w1, hum⟩ := upsampleMod_init_ok inC (nfeat.getD d 0) upm true w hm
      obtain ⟨dm, w2, hdm⟩ :=
        ConvMod.init3_ok (nfeat.getD d 0) (nfeat.getD d 0) resid w1
      obtain ⟨ups', dcs', c', w3, hrec, hl1, hl2⟩ :=
        ih (nfeat.getD d 0) w2 (by omega) (by omega)
      refine ⟨um :: ups', dm :: dcs', c', w3, ?_, by simp [hl1], by simp [hl2]⟩
      simp only [buildExpand, hfs, hks, hum, hdm, hrec, Bind.bind, Except.bind]

/-- Full construction success: with batch normalization enabled, a known
upsample mode, a well-formed init_stride, depth below the schedule
length and below the length of the fixed sizes list, RSUNet.__init__
succeeds and creates exactly depth pooling stages, depth upsample
stages, depth contracting ConvMods and depth expanding ConvMods. -/
theorem buildRSUNet_ok (aff depth : Nat) (resid : Bool) (upm : String) (istr : PyVal)
    (nfeat : List Nat) (mode : String) (w0 : World)
    (hm : upm = "bilinear" ∨ upm = "nearest" ∨ upm = "transpose")
    (hi : istrOkB istr = true) (h1 : depth < nfeat.length) (h2 : depth < 5) :
    ∃ net w', buildRSUNet aff depth resid upm true istr nfeat mode w0 = .ok (net, w') ∧
      net.pools.length = depth ∧ net.upsamplesD.length = depth ∧
      net.convmods.length = depth ∧ net.dconvmodsD.length = depth ∧
      net.depth = depth := by
  obtain ⟨ein, w1, hein⟩ := embeddingMod_init_ok 1 embed_nin istr ⟨mode, w0.rng⟩ hi
  obtain ⟨cms, ps, c1, w2, hcon, hc1, hc2⟩ :=
    @buildContract_ok resid nfeat depth 0 embed_nin w1 (by omega) (by omega)
  have hfs := liftIdx_getD (l := nfeat) (i := depth) h1
  have hks := sizes_liftIdx_lt (i := depth) h2
  obtain ⟨br, w3, hbr⟩ := ConvMod.init3_ok c1 (nfeat.getD depth 0) resid w2
  obtain ⟨upsD, dcsD, c2, w4, hexp, he1, he2⟩ :=
    @buildExpand_ok resid upm nfeat hm depth (nfeat.getD depth 0) w3 (by omega) (by omega)
  cases hpe : pyEqOne istr with
  | true =>
      refine ⟨⟨depth, ein, cms, ps, br,
          upsD, dcsD,
          .plain ⟨⟨c2, embed_nout, ⟨1, 5, 5⟩, ⟨1, 1, 1⟩, ⟨0, 2, 2⟩, bk w4.mode, w4.rng⟩⟩,
          ⟨⟨embed_nout, aff, ⟨1, 1, 1⟩, ⟨1, 1, 1⟩, ⟨0, 0, 0⟩,
            bk w4.mode, w4.rng + 1⟩⟩⟩,
        ⟨w4.mode, w4.rng + 1 + 1⟩, ?_, hc2, he1, hc1, he2, rfl⟩
      simp only [buildRSUNet, if_pos h1, hein, hcon, hfs, hks, hbr, hexp, hpe, if_true,
        EmbeddingMod.init_s1_eq, OutputMod.init_eq, Except.map, Bind.bind, Except.bind]
  | false =>
      have hneg : ¬(pyEqOne istr = true) := by simp [hpe]
      obtain ⟨eo, w5, heo⟩ := embeddingModUP_init_ok c2 embed_nout istr w4 hi
      refine ⟨⟨depth, ein, cms, ps, br, upsD, dcsD, .up eo,
          ⟨⟨embed_nout, aff, ⟨1, 1, 1⟩, ⟨1, 1, 1⟩, ⟨0, 0, 0⟩, bk w5.mode, w5.rng⟩⟩⟩,
        ⟨w5.mode, w5.rng + 1⟩, ?_, hc2, he1, hc1, he2, rfl⟩
      simp only [buildRSUNet, if_pos h1, hein, hcon, hfs, hks, hbr, hexp, if_neg hneg,
        heo, OutputMod.init_eq, Except.map, Bind.bind, Except.bind]

/-- The assert depth < len(nfeatures) fires with an AssertionError
whenever the depth is at least the schedule length. -/
theorem buildRSUNet_assert (aff depth : Nat) (resid : Bool) (upm : String)
    (istr : PyVal) (nfeat : List Nat) (mode : String) (w0 : World)
    (h : nfeat.length ≤ depth) :
    buildRSUNet aff depth resid upm true istr nfeat mode w0 = .error .assertError := by
  simp only [buildRSUNet]
  rw [if_neg (by omega)]

/-- Beyond index 5 the contracting loop dies on sizes[i] with an
IndexError, even while every schedule index is in range. -/
theorem buildContract_idx {resid : Bool} {nfeat : List Nat} :
    ∀ (fuel i inC : Nat) (w : World), i + fuel ≤ nfeat.length → 5 < i + fuel → i ≤ 5 →
      buildContract resid true nfeat i fuel inC w = .error .indexError := by
  intro fuel
  induction fuel with
  | zero =>
      intro i inC w _ h5 hi
      omega
  | succ f ih =>
      intro i inC w hlen h5 hi
      have hfs := liftIdx_getD (l := nfeat) (i := i) (by omega)
      by_cases he : i = 5
      · subst he
        have hks := sizes_liftIdx_ge (i := 5) (le_refl 5)
        simp only [buildContract, hfs, hks, Bind.bind, Except.bind]
      · have hks := sizes_liftIdx_lt (i := i) (by omega)
        obtain ⟨m, w1, hcm⟩ := ConvMod.init3_ok inC (nfeat.getD i 0) resid w
        have hrec := ih (i + 1) (nfeat.getD i 0) w1 (by omega) (by omega) (by omega)
        simp only [buildContract, hfs, hks, hcm, hrec, Bind.bind, Except.bind]

/-
  Inversion lemmas: what a successful construction tells us about the
  produced modules, the global mode and the chosen backends.
-/

theorem conv_init_inv {inC outC : Nat} {ks st pd : Sp} {bias : Bool} {w : World}
    {c : Conv} {w' : World} (h : Conv.init inC outC ks st pd bias w = .ok (c, w')) :
    w'.mode = w.mode ∧ c.backend = bk w.mode := by
  cases bias with
  | true => exact absurd h (by rw [Conv.init_true_eq]; simp)
  | false =>
      rw [Conv.init_false_eq] at h
      simp only [Except.ok.injEq, Prod.mk.injEq] at h
      obtain ⟨hc, hw⟩ := h
      subst hc; subst hw
      exact ⟨rfl, rfl⟩

theorem convT_init_inv {inC outC : Nat} {ks st pd op : Sp} {bias : Bool} {w : World}
    {c : ConvT} {w' : World} (h : ConvT.init inC outC ks st pd op bias w = .ok (c, w')) :
    w'.mode = w.mode := by
  simp only [ConvT.init, Except.ok.injEq, Prod.mk.injEq] at h
  obtain ⟨-, hw⟩ := h
  subst hw
  rfl

theorem convMod_init_inv {inC outC : Nat} {ksArg : PyVal} {resid useBn : Bool} {w : World}
    {m : ConvMod} {w' : World} (h : ConvMod.init inC outC ksArg resid useBn w = .ok (m, w')) :
    w'.mode = w.mode ∧ m.conv1.backend = bk w.mode ∧ m.conv2.backend = bk w.mode ∧
      m.conv3.backend = bk w.mode := by
  simp only [ConvMod.init] at h
  obtain ⟨pdL, hpdL, h⟩ := exBind_ok.mp h
  obtain ⟨ks, hks, h⟩ := exBind_ok.mp h
  obtain ⟨pd, hpd, h⟩ := exBind_ok.mp h
  obtain ⟨⟨c1, w1⟩, h1, h⟩ := exBind_ok.mp h
  obtain ⟨⟨c2, w2⟩, h2, h⟩ := exBind_ok.mp h
  obtain ⟨⟨c3, w3⟩, h3, h⟩ := exBind_ok.mp h
  simp only [Except.ok.injEq, Prod.mk.injEq] at h
  obtain ⟨hm, hw⟩ := h
  subst hm; subst hw
  obtain ⟨e1m, e1b⟩ := conv_init_inv h1
  obtain ⟨e2m, e2b⟩ := conv_init_inv h2
  obtain ⟨e3m, e3b⟩ := conv_init_inv h3
  refine ⟨by rw [e3m, e2m, e1m], e1b, ?_, ?_⟩
  · rw [e2b, e1m]
  · rw [e3b, e2m, e1m]

theorem upsampleMod_init_inv {inC outC : Nat} {upArg : PyVal} {upm : String}
    {useBn : Bool} {w : World} {m : UpsampleMod} {w' : World}
    (h : UpsampleMod.init inC outC upArg upm useBn w = .ok (m, w')) :
    w'.mode = w.mode ∧ ∀ c, m.conv = some c → c.backend = bk w.mode := by
  simp only [UpsampleMod.init] at h
  split at h
  · obtain ⟨up, hup, h⟩ := exBind_ok.mp h
    obtain ⟨⟨c, w1⟩, hc, h⟩ := exBind_ok.mp h
    simp only [Except.ok.injEq, Prod.mk.injEq] at h
    obtain ⟨hm, hw⟩ := h
    subst hm; subst hw
    obtain ⟨em, eb⟩ := conv_init_inv hc
    exact ⟨em, by intro c' hc'; cases hc'; exact eb⟩
  · split at h
    · obtain ⟨up, hup, h⟩ := exBind_ok.mp h
      obtain ⟨⟨c, w1⟩, hc, h⟩ := exBind_ok.mp h
      simp only [Except.ok.injEq, Prod.mk.injEq] at h
      obtain ⟨hm, hw⟩ := h
      subst hm; subst hw
      obtain ⟨em, eb⟩ := conv_init_inv hc
      exact ⟨em, by intro c' hc'; cases hc'; exact eb⟩
    · split at h
      · obtain ⟨up, hup, h⟩ := exBind_ok.mp h
        obtain ⟨⟨tc, w1⟩, htc, h⟩ := exBind_ok.mp h
        simp only [Except.ok.injEq, Prod.mk.injEq] at h
        obtain ⟨hm, hw⟩ := h
        subst hm; subst hw
        exact ⟨convT_init_inv htc, by intro c' hc'; cases hc'⟩
      · exact absurd h (by simp)

theorem embeddingMod_init_inv {inC outC : Nat} {ksArg istr : PyVal} {w : World}
    {e : EmbeddingMod} {w' : World}
    (h : EmbeddingMod.init inC outC ksArg istr w = .ok (e, w')) :
    w'.mode = w.mode ∧ e.conv.backend = bk w.mode := by
  simp only [EmbeddingMod.init] at h
  obtain ⟨pdL, hpdL, h⟩ := exBind_ok.mp h
  obtain ⟨pd, hpd, h⟩ := exBind_ok.mp h
  obtain ⟨ks, hks, h⟩ := exBind_ok.mp h
  obtain ⟨st, hst, h⟩ := exBind_ok.mp h
  obtain ⟨⟨c, w1⟩, hc, h⟩ := exBind_ok.mp h
  simp only [Except.ok.injEq, Prod.mk.injEq] at h
  obtain ⟨he, hw⟩ := h
  subst he; subst hw
  obtain ⟨em, eb⟩ := conv_init_inv hc
  exact ⟨em, eb⟩

theorem embeddingModUP_init_inv {inC outC : Nat} {ksArg istr : PyVal} {w : World}
    {e : EmbeddingModUP} {w' : World}
    (h : EmbeddingModUP.init inC outC ksArg istr w = .ok (e, w')) :
    w'.mode = w.mode := by
  simp only [EmbeddingModUP.init] at h
  obtain ⟨pdL, hpdL, h⟩ := exBind_ok.mp h
  obtain ⟨pd, hpd, h⟩ := exBind_ok.mp h
  obtain ⟨ks, hks, h⟩ := exBind_ok.mp h
  obtain ⟨st, hst, h⟩ := exBind_ok.mp h
  obtain ⟨⟨c, w1⟩, hc, h⟩ := exBind_ok.mp h
  simp only [Except.ok.injEq, Prod.mk.injEq] at h
  obtain ⟨-, hw⟩ := h
  subst hw
  exact convT_init_inv hc

theorem outputMod_init_inv {inC outC : Nat} {w : World} {o : OutputMod} {w' : World}
    (h : OutputMod.init inC outC w = .ok (o, w')) :
    w'.mode = w.mode ∧ o.conv.backend = bk w.mode := by
  rw [OutputMod.init_eq] at h
  simp only [Except.ok.injEq, Prod.mk.injEq] at h
  obtain ⟨ho, hw⟩ := h
  subst ho; subst hw
  exact ⟨rfl, rfl⟩

theorem buildContract_inv {resid useBn : Bool} {nfeat : List Nat} :
    ∀ {fuel i inC : Nat} {w w' : World} {cms : List ConvMod} {ps : List Sp} {cOut : Nat},
      buildContract resid useBn nfeat i fuel inC w = .ok (cms, ps, cOut, w') →
      w'.mode = w.mode ∧ ∀ m ∈ cms, ∀ b ∈ m.backends, b = bk w.mode := by
  intro fuel
  induction fuel with
  | zero =>
      intro i inC w w' cms ps cOut h
      simp only [buildContract, Except.ok.injEq, Prod.mk.injEq] at h
      obtain ⟨h1, -, -, h4⟩ := h
      subst h1; subst h4
      exact ⟨rfl, by intro m hm; cases hm⟩
  | succ f ih =>
      intro i inC w w' cms ps cOut h
      simp only [buildContract] at h
      obtain ⟨fs, hfs, h⟩ := exBind_ok.mp h
      obtain ⟨ks, hks, h⟩ := exBind_ok.mp h
      obtain ⟨⟨cm, w1⟩, hcm, h⟩ := exBind_ok.mp h
      obtain ⟨⟨cms', ps', c', w2⟩, hrec, h⟩ := exBind_ok.mp h
      simp only [Except.ok.injEq, Prod.mk.injEq] at h
      obtain ⟨h1, -, -, h4⟩ := h
      subst h1; subst h4
      obtain ⟨em, eb1, eb2, eb3⟩ := convMod_init_inv hcm
      obtain ⟨rm, rb⟩ := ih hrec
      refine ⟨by rw [rm, em], ?_⟩
      intro m hm b hb
      rcases List.mem_cons.mp hm with hm | hm
      · subst hm
        simp only [ConvMod.backends, List.mem_cons, List.mem_singleton] at hb
        rcases hb with hb | hb | hb
        · rw [hb, eb1]
        · rw [hb, eb2]
        · simp only [List.mem_nil_iff] at hb
          rcases hb with hb | hb
          · rw [hb, eb3]
          · cases hb
      · have := rb m hm b hb
        rw [this, em]

theorem buildExpand_inv {resid : Bool} {upm : String} {useBn : Bool} {nfeat : List Nat} :
    ∀ {d inC : Nat} {w w' : World} {ups : List UpsampleMod} {dcs : List ConvMod} {cF : Nat},
      buildExpand resid upm useBn nfeat d inC w = .ok (ups, dcs, cF, w') →
      w'.mode = w.mode ∧ (∀ u ∈ ups, ∀ b ∈ u.backends, b = bk w.mode) ∧
        ∀ m ∈ dcs, ∀ b ∈ m.backends, b = bk w.mode := by
  intro d
  induction d with
  | zero =>
      intro inC w w' ups dcs cF h
      simp only [buildExpand, Except.ok.injEq, Prod.mk.injEq] at h
      obtain ⟨h1, h2, -, h4⟩ := h
      subst h1; subst h2; subst h4
      refine ⟨rfl, ?_, ?_⟩
      · intro u hu
        cases hu
      · intro m hm
        cases hm
  | succ d ih =>
      intro inC w w' ups dcs cF h
      simp only [buildExpand] at h
      obtain ⟨fs, hfs, h⟩ := exBind_ok.mp h
      obtain ⟨ks, hks, h⟩ := exBind_ok.mp h
      obtain ⟨⟨um, w1⟩, hum, h⟩ := exBind_ok.mp h
      obtain ⟨⟨dm, w2⟩, hdm, h⟩ := exBind_ok.mp h
      obtain ⟨⟨ups', dcs', c', w3⟩, hrec, h⟩ := exBind_ok.mp h
      simp only [Except.ok.injEq, Prod.mk.injEq] at h
      obtain ⟨h1, h2, -, h4⟩ := h
      subst h1; subst h2; subst h4
      obtain ⟨eum, eub⟩ := upsampleMod_init_inv hum
      obtain ⟨edm, edb1, edb2, edb3⟩ := convMod_init_inv hdm
      obtain ⟨rm, rub, rdb⟩ := ih hrec
      refine ⟨by rw [rm, edm, eum], ?_, ?_⟩
      · intro u hu b hb
        rcases List.mem_cons.mp hu with hu | hu
        · subst hu
          simp only [UpsampleMod.backends] at hb
          rcases hc : u.conv with - | c
          all_goals rw [hc] at hb
          · cases hb
          · simp only [List.mem_singleton] at hb
            rw [hb]
            exact eub c hc
        · have := rub u hu b hb
          rw [this, edm, eum]
      · intro m hm b hb
        rcases List.mem_cons.mp hm with hm | hm
        · subst hm
          simp only [ConvMod.backends, List.mem_cons, List.mem_singleton,
            List.mem_nil_iff] at hb
          rcases hb with hb | hb | hb | hb
          · rw [hb, edb1, eum]
          · rw [hb, edb2, eum]
          · rw [hb, edb3, eum]
          · cases hb
        · have := rdb m hm b hb
          rw [this, edm, eum]

/-- Master decomposition of a successful construction into the pieces
RSUNet.__init__ built, in order. -/
theorem buildRSUNet_inv {aff depth : Nat} {resid : Bool} {upm : String} {useBn : Bool}
    {istr : PyVal} {nfeat : List Nat} {mode : String} {w0 : World} {net : RSUNet}
    {w' : World}
    (h : buildRSUNet aff depth resid upm useBn istr nfeat mode w0 = .ok (net, w')) :
    ∃ (ein : EmbeddingMod) (w1 : World) (cms : List ConvMod) (ps : List Sp) (c1 : Nat)
      (w2 : World) (fs : Nat) (br : ConvMod) (w3 : World) (upsD : List UpsampleMod)
      (dcsD : List ConvMod) (c2 : Nat) (w4 : World) (eout : EOut) (w5 : World)
      (out : OutputMod),
      depth < nfeat.length ∧
      EmbeddingMod.init 1 embed_nin embed_ks istr ⟨mode, w0.rng⟩ = .ok (ein, w1) ∧
      buildContract resid useBn nfeat 0 depth embed_nin w1 = .ok (cms, ps, c1, w2) ∧
      nfeat[depth]? = some fs ∧
      ConvMod.init c1 fs (.seq [3, 3, 3]) resid useBn w2 = .ok (br, w3) ∧
      buildExpand resid upm useBn nfeat depth fs w3 = .ok (upsD, dcsD, c2, w4) ∧
      ((pyEqOne istr = true ∧
          ∃ e, EmbeddingMod.init c2 embed_nout embed_ks (.scalar 1) w4 = .ok (e, w5) ∧
            eout = .plain e) ∨
        (pyEqOne istr = false ∧
          ∃ e, EmbeddingModUP.init c2 embed_nout embed_ks istr w4 = .ok (e, w5) ∧
            eout = .up e)) ∧
      OutputMod.init embed_nout aff w5 = .ok (out, w') ∧
      net = ⟨depth, ein, cms, ps, br, upsD, dcsD, eout, out⟩ := by
  simp only [buildRSUNet] at h
  split at h
  case isFalse => exact absurd h (by simp)
  case isTrue hlt =>
  obtain ⟨⟨ein, w1⟩, hein, g1⟩ := exBind_ok.mp h
  clear h
  obtain ⟨⟨cms, ps, c1, w2⟩, hcon, g2⟩ := exBind_ok.mp g1
  clear g1
  obtain ⟨fs, hfs, g3⟩ := exBind_ok.mp g2
  clear g2
  obtain ⟨ksb, hksb, g4⟩ := exBind_ok.mp g3
  clear g3
  obtain ⟨⟨br, w3⟩, hbr, g5⟩ := exBind_ok.mp g4
  clear g4
  obtain ⟨⟨upsD, dcsD, c2, w4⟩, hexp, g6⟩ := exBind_ok.mp g5
  clear g5
  obtain ⟨hks3, -⟩ := sizes_liftIdx_inv hksb
  subst hks3
  by_cases hpe : pyEqOne istr = true
  case pos =>
      rw [if_pos hpe] at g6
      obtain ⟨⟨eout, w5⟩, hmap, g7⟩ := exBind_ok.mp g6
      clear g6
      obtain ⟨⟨e, w5x⟩, he, hpair⟩ := exMap_ok.mp hmap
      simp only [Prod.mk.injEq] at hpair
      obtain ⟨hp1, hp2⟩ := hpair
      subst hp1; subst hp2
      obtain ⟨⟨out, w6⟩, hout, g8⟩ := exBind_ok.mp g7
      clear g7
      simp only [Except.ok.injEq, Prod.mk.injEq] at g8
      obtain ⟨hn, hw⟩ := g8
      subst hn; subst hw
      exact ⟨ein, w1, cms, ps, c1, w2, fs, br, w3, upsD, dcsD, c2, w4, .plain e, w5x,
        out, hlt, hein, hcon, liftIdx_ok.mp hfs, hbr, hexp,
        Or.inl ⟨hpe, e, he, rfl⟩, hout, rfl⟩
  case neg =>
      rw [if_neg hpe] at g6
      obtain ⟨⟨eout, w5⟩, hmap, g7⟩ := exBind_ok.mp g6
      clear g6
      obtain ⟨⟨e, w5x⟩, he, hpair⟩ := exMap_ok.mp hmap
      simp only [Prod.mk.injEq] at hpair
      obtain ⟨hp1, hp2⟩ := hpair
      subst hp1; subst hp2
      obtain ⟨⟨out, w6⟩, hout, g8⟩ := exBind_ok.mp g7
      clear g7
      simp only [Except.ok.injEq, Prod.mk.injEq] at g8
      obtain ⟨hn, hw⟩ := g8
      subst hn; subst hw
      exact ⟨ein, w1, cms, ps, c1, w2, fs, br, w3, upsD, dcsD, c2, w4, .up e, w5x,
        out, hlt, hein, hcon, liftIdx_ok.mp hfs, hbr, hexp,
        Or.inr ⟨by simpa using hpe, e, he, rfl⟩, hout, rfl⟩

/-
  During a forward pass the only possible failure is a tensor-engine
  RuntimeError: no assertion (configuration) error and no index error
  can arise at call time.
-/

theorem runsClean_ok {α : Type} (a : α) : RunsClean (Except.ok a) := by
  intro e he
  cases he

theorem runsClean_rte {α : Type} : RunsClean (Except.error Err.runtimeError : Except Err α) := by
  intro e he
  simp only [Except.error.injEq] at he
  exact he.symm

theorem runsClean_ite2 {α : Type} {c : Prop} [Decidable c] {x y : Except Err α}
    (hx : RunsClean x) (hy : RunsClean y) : RunsClean (if c then x else y) := by
  intro e he
  split at he
  · exact hx e he
  · exact hy e he

theorem runsClean_bind {α β : Type} {x : Except Err α} {f : α → Except Err β}
    (hx : RunsClean x) (hf : ∀ a, RunsClean (f a)) : RunsClean (x >>= f) := by
  intro e he
  cases x with
  | error e2 =>
      have he' : (Except.error e2 : Except Err β) = .error e := he
      simp only [Except.error.injEq] at he'
      subst he'
      exact hx e2 rfl
  | ok a =>
      exact hf a e he

theorem runsClean_map {α β : Type} {x : Except Err α} {g : α → β} (hx : RunsClean x) :
    RunsClean (x.map g) := by
  intro e he
  cases x with
  | error e2 =>
      have he' : (Except.error e2 : Except Err β) = .error e := he
      simp only [Except.error.injEq] at he'
      subst he'
      exact hx e2 rfl
  | ok a =>
      exact absurd (show (Except.ok (g a) : Except Err β) = .error e from he) (by simp)

theorem convDim_clean (i k s p : Nat) : RunsClean (convDim i k s p) := by
  unfold convDim
  exact runsClean_ite2 (runsClean_ok _) runsClean_rte

theorem convTDim_clean (i k s p op : Nat) : RunsClean (convTDim i k s p op) := by
  unfold convTDim
  exact runsClean_ite2 (runsClean_ok _) runsClean_rte

theorem poolDim_clean (i k : Nat) : RunsClean (poolDim i k) := by
  unfold poolDim
  exact runsClean_ite2 (runsClean_ok _) runsClean_rte

theorem bcast_clean (a b : Nat) : RunsClean (bcast a b) := by
  unfold bcast
  exact runsClean_ite2 (runsClean_ok _)
    (runsClean_ite2 (runsClean_ok _) (runsClean_ite2 (runsClean_ok _) runsClean_rte))

theorem convSp_clean (ks st pd sp : Sp) : RunsClean (convSp ks st pd sp) := by
  unfold convSp
  apply runsClean_bind (convDim_clean _ _ _ _)
  intro a
  apply runsClean_bind (convDim_clean _ _ _ _)
  intro b
  apply runsClean_bind (convDim_clean _ _ _ _)
  intro c
  exact runsClean_ok _

theorem convTSp_clean (ks st pd op sp : Sp) : RunsClean (convTSp ks st pd op sp) := by
  unfold convTSp
  apply runsClean_bind (convTDim_clean _ _ _ _ _)
  intro a
  apply runsClean_bind (convTDim_clean _ _ _ _ _)
  intro b
  apply runsClean_bind (convTDim_clean _ _ _ _ _)
  intro c
  exact runsClean_ok _

theorem conv_forward_clean (c : Conv) (t : TShape) : RunsClean (c.forward t) := by
  unfold Conv.forward
  exact runsClean_ite2 (runsClean_map (convSp_clean _ _ _ _)) runsClean_rte

theorem convT_forward_clean (c : ConvT) (t : TShape) : RunsClean (c.forward t) := by
  unfold ConvT.forward
  exact runsClean_ite2 (runsClean_map (convTSp_clean _ _ _ _ _)) runsClean_rte

theorem normGate_apply_clean (g : NormGate) (t : TShape) : RunsClean (g.apply t) := by
  cases g with
  | bn c =>
      unfold NormGate.apply
      exact runsClean_ite2 (runsClean_ok _) runsClean_rte
  | idGate => exact runsClean_ok _

theorem addShape_clean (x y : TShape) : RunsClean (addShape x y) := by
  unfold addShape
  apply runsClean_bind (bcast_clean _ _)
  intro a
  apply runsClean_bind (bcast_clean _ _)
  intro b
  apply runsClean_bind (bcast_clean _ _)
  intro c
  apply runsClean_bind (bcast_clean _ _)
  intro d
  apply runsClean_bind (bcast_clean _ _)
  intro e
  exact runsClean_ok _

theorem residualSumS_clean (x skip : TShape) (r : Bool) :
    RunsClean (residualSumS x skip r) := by
  unfold residualSumS
  exact runsClean_ite2 (addShape_clean _ _) (runsClean_ok _)

theorem maxPool_clean (k : Sp) (t : TShape) : RunsClean (maxPool k t) := by
  unfold maxPool
  apply runsClean_bind (poolDim_clean _ _)
  intro a
  apply runsClean_bind (poolDim_clean _ _)
  intro b
  apply runsClean_bind (poolDim_clean _ _)
  intro c
  exact runsClean_ok _

theorem convMod_forward_clean (m : ConvMod) (t : TShape) : RunsClean (m.forward t) := by
  unfold ConvMod.forward
  apply runsClean_bind (conv_forward_clean _ _)
  intro a
  apply runsClean_bind (normGate_apply_clean _ _)
  intro b
  apply runsClean_bind (conv_forward_clean _ _)
  intro c
  apply runsClean_bind (normGate_apply_clean _ _)
  intro d
  apply runsClean_bind (conv_forward_clean _ _)
  intro e
  apply runsClean_bind (residualSumS_clean _ _ _)
  intro f
  apply runsClean_bind (normGate_apply_clean _ _)
  intro g
  exact runsClean_ok _

theorem upLayer_apply_clean (u : UpLayer) (t : TShape) : RunsClean (u.apply t) := by
  cases u with
  | interp s => exact runsClean_ok _
  | tconv c => exact convT_forward_clean _ _

theorem upsampleMod_convApply_clean (m : UpsampleMod) (t : TShape) :
    RunsClean (m.convApply t) := by
  unfold UpsampleMod.convApply
  cases m.conv with
  | none => exact runsClean_ok _
  | some c => exact conv_forward_clean _ _

theorem upsampleMod_forward_clean (m : UpsampleMod) (x skip : TShape) :
    RunsClean (m.forward x skip) := by
  unfold UpsampleMod.forward
  apply runsClean_bind (upLayer_apply_clean _ _)
  intro a
  apply runsClean_bind (upsampleMod_convApply_clean _ _)
  intro b
  apply runsClean_bind (addShape_clean _ _)
  intro c
  apply runsClean_bind (normGate_apply_clean _ _)
  intro d
  exact runsClean_ok _

theorem embeddingMod_forward_clean (e : EmbeddingMod) (t : TShape) :
    RunsClean (e.forward t) :=
  runsClean_map (conv_forward_clean _ _)

theorem embeddingModUP_forward_clean (e : EmbeddingModUP) (t : TShape) :
    RunsClean (e.forward t) :=
  runsClean_map (convT_forward_clean _ _)

theorem eOut_forward_clean (e : EOut) (t : TShape) : RunsClean (e.forward t) := by
  cases e with
  | plain e => exact embeddingMod_forward_clean _ _
  | up e => exact embeddingModUP_forward_clean _ _

theorem outputMod_forward_clean (o : OutputMod) (t : TShape) : RunsClean (o.forward t) :=
  conv_forward_clean _ _

theorem contractSteps_clean :
    ∀ (l : List (ConvMod × Sp)) (t : TShape), RunsClean (contractSteps l t) := by
  intro l
  induction l with
  | nil => intro t; exact runsClean_ok _
  | cons p rest ih =>
      intro t
      obtain ⟨cm, pk⟩ := p
      unfold contractSteps
      apply runsClean_bind (convMod_forward_clean _ _)
      intro a
      apply runsClean_bind (maxPool_clean _ _)
      intro b
      apply runsClean_bind (ih _)
      intro c
      exact runsClean_ok _

theorem expandSteps_clean :
    ∀ (l : List (UpsampleMod × ConvMod × TShape)) (t : TShape),
      RunsClean (expandSteps l t) := by
  intro l
  induction l with
  | nil => intro t; exact runsClean_ok _
  | cons p rest ih =>
      intro t
      obtain ⟨um, dm, s⟩ := p
      unfold expandSteps
      apply runsClean_bind (upsampleMod_forward_clean _ _ _)
      intro a
      apply runsClean_bind (convMod_forward_clean _ _)
      intro b
      exact ih _

theorem rsunet_forward_clean (net : RSUNet) (t : TShape) : RunsClean (net.forward t) := by
  unfold RSUNet.forward
  apply runsClean_bind (embeddingMod_forward_clean _ _)
  intro a
  apply runsClean_bind (contractSteps_clean _ _)
  intro b
  apply runsClean_bind (convMod_forward_clean _ _)
  intro c
  apply runsClean_bind (expandSteps_clean _ _)
  intro d
  apply runsClean_bind (eOut_forward_clean _ _)
  intro e
  exact outputMod_forward_clean _ _

/-- Python equality of a PyVal with the integer 1. -/
theorem pyEqOne_iff (v : PyVal) : pyEqOne v = true ↔ v = PyVal.scalar 1 := by
  match v with
  | .scalar 0 => simp [pyEqOne]
  | .scalar 1 => simp [pyEqOne]
  | .scalar (m + 2) => simp [pyEqOne]
  | .seq l => simp [pyEqOne]

theorem buildContract_len {resid useBn : Bool} {nfeat : List Nat} :
    ∀ {fuel i inC : Nat} {w w' : World} {cms : List ConvMod} {ps : List Sp} {cOut : Nat},
      buildContract resid useBn nfeat i fuel inC w = .ok (cms, ps, cOut, w') →
      cms.length = fuel ∧ ps.length = fuel := by
  intro fuel
  induction fuel with
  | zero =>
      intro i inC w w' cms ps cOut h
      simp only [buildContract, Except.ok.injEq, Prod.mk.injEq] at h
      obtain ⟨h1, h2, -, -⟩ := h
      subst h1; subst h2
      exact ⟨rfl, rfl⟩
  | succ f ih =>
      intro i inC w w' cms ps cOut h
      simp only [buildContract] at h
      obtain ⟨fs, hfs, h⟩ := exBind_ok.mp h
      obtain ⟨ks, hks, h⟩ := exBind_ok.mp h
      obtain ⟨⟨cm, w1⟩, hcm, h⟩ := exBind_ok.mp h
      obtain ⟨⟨cms', ps', c', w2⟩, hrec, h⟩ := exBind_ok.mp h
      simp only [Except.ok.injEq, Prod.mk.injEq] at h
      obtain ⟨h1, h2, -, -⟩ := h
      subst h1; subst h2
      obtain ⟨l1, l2⟩ := ih hrec
      exact ⟨by simp [l1], by simp [l2]⟩

theorem buildExpand_len {resid : Bool} {upm : String} {useBn : Bool} {nfeat : List Nat} :
    ∀ {d inC : Nat} {w w' : World} {ups : List UpsampleMod} {dcs : List ConvMod} {cF : Nat},
      buildExpand resid upm useBn nfeat d inC w = .ok (ups, dcs, cF, w') →
      ups.length = d ∧ dcs.length = d := by
  intro d
  induction d with
  | zero =>
      intro inC w w' ups dcs cF h
      simp only [buildExpand, Except.ok.injEq, Prod.mk.injEq] at h
      obtain ⟨h1, h2, -, -⟩ := h
      subst h1; subst h2
      exact ⟨rfl, rfl⟩
  | succ d ih =>
      intro inC w w' ups dcs cF h
      simp only [buildExpand] at h
      obtain ⟨fs, hfs, h⟩ := exBind_ok.mp h
      obtain ⟨ks, hks, h⟩ := exBind_ok.mp h
      obtain ⟨⟨um, w1⟩, hum, h⟩ := exBind_ok.mp h
      obtain ⟨⟨dm, w2⟩, hdm, h⟩ := exBind_ok.mp h
      obtain ⟨⟨ups', dcs', c', w3⟩, hrec, h⟩ := exBind_ok.mp h
      simp only [Except.ok.injEq, Prod.mk.injEq] at h
      obtain ⟨h1, h2, -, -⟩ := h
      subst h1; subst h2
      obtain ⟨l1, l2⟩ := ih hrec
      exact ⟨by simp [l1], by simp [l2]⟩

/-- The channel count the expanding loop hands to embed_out is the
shallowest schedule entry (for at least one stage). -/
theorem buildExpand_cF {resid : Bool} {upm : String} {useBn : Bool} {nfeat : List Nat} :
    ∀ {d inC : Nat} {w w' : World} {ups : List UpsampleMod} {dcs : List ConvMod} {cF : Nat},
      buildExpand resid upm useBn nfeat d inC w = .ok (ups, dcs, cF, w') → 1 ≤ d →
      cF = nfeat.getD 0 0 := by
  intro d
  induction d with
  | zero =>
      intro inC w w' ups dcs cF h hd1
      omega
  | succ d ih =>
      intro inC w w' ups dcs cF h hd1
      simp only [buildExpand] at h
      obtain ⟨fs, hfs, h⟩ := exBind_ok.mp h
      obtain ⟨ks, hks, h⟩ := exBind_ok.mp h
      obtain ⟨⟨um, w1⟩, hum, h⟩ := exBind_ok.mp h
      obtain ⟨⟨dm, w2⟩, hdm, h⟩ := exBind_ok.mp h
      obtain ⟨⟨ups', dcs', c', w3⟩, hrec, h⟩ := exBind_ok.mp h
      simp only [Except.ok.injEq, Prod.mk.injEq] at h
      obtain ⟨-, -, hc, -⟩ := h
      subst hc
      cases d with
      | zero =>
          simp only [buildExpand, Except.ok.injEq, Prod.mk.injEq] at hrec
          obtain ⟨-, -, hcc, -⟩ := hrec
          rw [← hcc]
          exact (getD_of_getElem? (liftIdx_ok.mp hfs)).symm
      | succ e => exact ih hrec (by omega)

/-
  Concrete constructions used by the closed counterexample and witness
  statements.
-/

/-
  Claim theorems.
-/

/-- C4: ConvModule.apply(x) computes exactly the six-step sequence
h = activation(norm1(conv1(x))); skip = h; h = activation(norm2(conv2(h)));
h = conv3(h); h = h + skip when residual is enabled, else h unchanged;
result = activation(norm3(h)).  In particular the residual addend is the
post-activation output of the first convolution and the residual sum
happens before the third normalization: the statement-for-statement
translation of ConvMod.forward equals the specification's six-step
composition for every abstract tensor type, every choice of the three
convolutions, the three normalizations, the activation and the residual
flag. -/
theorem convmod_six_steps {T : Type} [Add T] (m : ConvModF T) (x : T) :
    m.forward x = m.specSteps x := rfl

/-- C8 counterexample: a sequence whose length differs from the arity is
returned unchanged by _triple = _ntuple(3) — no InvalidShapeError (nor
any other failure) is raised, contradicting the claim that normalize
fails on a sequence of the wrong length. -/
theorem c8_counterexample :
    tripleOf (.seq [1, 2]) = .seq [1, 2] ∧ ([1, 2] : List Nat).length ≠ 3 :=
  ⟨rfl, by decide⟩

/-- C8 (amended): normalize(x, arity) replicates a scalar arity times
(yielding a sequence of length arity) and returns any sequence argument
unchanged whatever its length; it performs no length validation and can
never fail — a wrong-length sequence simply propagates downstream. -/
theorem ntuple_behavior (n a : Nat) (l : List Nat) :
    ntuple n (.scalar a) = .seq (List.replicate n a) ∧
    (List.replicate n a).length = n ∧
    ntuple n (.seq l) = .seq l :=
  ⟨rfl, by simp, rfl⟩

/-- C7: the Conv block cannot hold a bias parameter.  Conv.__init__
constructs the wrapped convolution with bias disabled in both backend
branches (nn.Conv3d(..., bias=False), Conv3d(..., bias=None)), so when
the bias option is enabled the subsequent
nn.init.constant_(self.conv.bias, 0) runs on None and raises
AttributeError instead of storing a zero bias; with the option disabled
construction succeeds, drawing the weights once (one RNG step) at
construction.  The third conjunct shows the realistic trigger: a ConvMod
with use_bn=False (which passes bias=True to its Conv blocks) fails the
same way. -/
theorem conv_bias_bug :
    Conv.init 8 8 ⟨3, 3, 3⟩ ⟨1, 1, 1⟩ ⟨1, 1, 1⟩ true ⟨"torch", 0⟩
        = .error .attributeError ∧
    Conv.init 8 8 ⟨3, 3, 3⟩ ⟨1, 1, 1⟩ ⟨1, 1, 1⟩ false ⟨"torch", 0⟩
        = .ok (⟨8, 8, ⟨3, 3, 3⟩, ⟨1, 1, 1⟩, ⟨1, 1, 1⟩, .torch, 0⟩, ⟨"torch", 1⟩) ∧
    ConvMod.init 8 8 (.seq [3, 3, 3]) true false ⟨"torch", 0⟩
        = .error .attributeError :=
  ⟨rfl, rfl, rfl⟩

/-- C6: an UpsampleModule strategy name outside bilinear, nearest,
transpose fails with an AssertionError (the specification's
InvalidConfigError) at construction time; and a forward pass of any
constructed network can only fail with a tensor-engine RuntimeError —
never an assertion (configuration) or index error — so a successfully
constructed network never raises a configuration error at call time. -/
theorem upsample_config_error_timing :
    (∀ (inC outC : Nat) (upArg : PyVal) (mode : String) (useBn : Bool) (w : World),
      mode ≠ "bilinear" → mode ≠ "nearest" → mode ≠ "transpose" →
      UpsampleMod.init inC outC upArg mode useBn w = .error .assertError) ∧
    (∀ (net : RSUNet) (t : TShape) (e : Err), net.forward t = .error e →
      e = .runtimeError) := by
  constructor
  · intro inC outC upArg mode useBn w h1 h2 h3
    exact UpsampleMod.init_unknown h1 h2 h3
  · intro net t e he
    exact rsunet_forward_clean net t e he

/-- Witness for C6: the strategy name foo fails with the assertion error
at construction, and a forward pass that does fail (dummy network, wrong
input channels) fails with the runtime error, not the configuration
error. -/
theorem upsample_config_error_timing_witness :
    UpsampleMod.init 8 8 (.scalar 2) "foo" true ⟨"tvm", 0⟩ = .error .assertError ∧
    net0.forward ⟨1, 1, ⟨4, 4, 4⟩⟩ ≠ .error .assertError :=
  ⟨upsample_config_error_timing.1 8 8 (.scalar 2) "foo" true ⟨"tvm", 0⟩
      (by decide) (by decide) (by decide),
   fun hcon => by
     have h2 := upsample_config_error_timing.2 net0 ⟨1, 1, ⟨4, 4, 4⟩⟩ .assertError hcon
     exact absurd h2 (by decide)⟩

/-- C10: the per-scale kernel sizes come from the fixed module-level
list sizes of length 5, not from the caller's schedule; with a
well-formed init_stride and batch normalization enabled, any schedule
longer than 5 entries together with any depth in [5, len(schedule))
makes construction fail with an out-of-range IndexError on sizes, even
though the validity condition depth < len(schedule) holds. -/
theorem sizes_index_overflow {aff depth : Nat} {resid : Bool} {upm : String}
    {istr : PyVal} {nfeat : List Nat} {mode : String} {wa : World}
    (h5 : 5 ≤ depth) (hlen : depth < nfeat.length) (hi : istrOkB istr = true) :
    buildRSUNet aff depth resid upm true istr nfeat mode wa = .error .indexError := by
  obtain ⟨ein, w1, hein⟩ := embeddingMod_init_ok 1 embed_nin istr ⟨mode, wa.rng⟩ hi
  by_cases hd5 : depth = 5
  · subst hd5
    obtain ⟨cms, ps, c1, w2, hcon, -, -⟩ :=
      @buildContract_ok resid nfeat 5 0 embed_nin w1 (by omega) (by omega)
    have hfs := liftIdx_getD (l := nfeat) (i := 5) hlen
    have hks := sizes_liftIdx_ge (i := 5) (le_refl 5)
    simp only [buildRSUNet, if_pos hlen, hein, hcon, hfs, hks, Bind.bind, Except.bind]
  · have hcon := @buildContract_idx resid nfeat depth 0 embed_nin w1
      (by omega) (by omega) (by omega)
    simp only [buildRSUNet, if_pos hlen, hein, hcon, Bind.bind, Except.bind]

/-- Witness for C10: a length-7 schedule with depth 6 (which satisfies
depth < len(schedule)) fails with the index error. -/
theorem sizes_index_overflow_witness :
    buildRSUNet 1 6 true "bilinear" true (.seq [1, 2, 2]) [2, 2, 2, 2, 2, 2, 2] "tvm"
        ⟨"tvm", 0⟩ = .error .indexError :=
  sizes_index_overflow (by decide) (by decide) (by decide)

/-- C3 counterexample: a schedule of length 6 with depth 5 satisfies
depth in [0, length(schedule)-1], yet construction does not succeed — it
fails with an IndexError on the fixed sizes list (not with
InvalidConfigError), refuting the claim that construction succeeds for
every schedule and every depth below the schedule length. -/
theorem c3_counterexample :
    buildRSUNet 1 5 true "bilinear" true (.seq [1, 2, 2]) [1, 1, 1, 1, 1, 1] "tvm"
        ⟨"tvm", 0⟩ = .error .indexError ∧
    5 < ([1, 1, 1, 1, 1, 1] : List Nat).length :=
  ⟨by rfl, by decide⟩

/-- C3 (amended): with batch normalization enabled, a known upsample
mode and a well-formed init_stride, construction succeeds — with exactly
depth pooling stages and depth upsample stages — for every depth below
both the schedule length and the length of the fixed module-level sizes
list (which is 5); and for every depth at least the schedule length it
fails with an AssertionError, the specification's InvalidConfigError.
(For len(schedule) > depth >= 5 it instead fails with an IndexError;
see C10.) -/
theorem build_depth_bounds (aff depth : Nat) (resid : Bool) (upm : String)
    (istr : PyVal) (nfeat : List Nat) (mode : String) (w : World) :
    ((upm = "bilinear" ∨ upm = "nearest" ∨ upm = "transpose") → istrOkB istr = true →
      depth < nfeat.length → depth < sizes.length →
      ∃ net w', buildRSUNet aff depth resid upm true istr nfeat mode w = .ok (net, w') ∧
        net.pools.length = depth ∧ net.upsamplesD.length = depth) ∧
    (nfeat.length ≤ depth →
      buildRSUNet aff depth resid upm true istr nfeat mode w = .error .assertError) := by
  constructor
  · intro hm hi h1 h2
    rw [sizes_length] at h2
    obtain ⟨net, w', hb2, hp, hu, -, -, -⟩ :=
      buildRSUNet_ok aff depth resid upm istr nfeat mode w hm hi h1 h2
    exact ⟨net, w', hb2, hp, hu⟩
  · intro h
    exact buildRSUNet_assert aff depth resid upm istr nfeat mode w h

/-- Witness for C3 (amended): the depth-2 length-3 configuration builds
with two pooling and two upsample stages, and the claim's concrete
failing scenario — schedule length 3 with depth 3 — raises the
configuration error. -/
theorem build_depth_bounds_witness :
    (∃ net w', buildRSUNet 3 2 true "bilinear" true (.seq [1, 2, 2]) [8, 16, 32] "tvm"
        ⟨"tvm", 0⟩ = .ok (net, w') ∧
      net.pools.length = 2 ∧ net.upsamplesD.length = 2) ∧
    buildRSUNet 3 3 true "bilinear" true (.seq [1, 2, 2]) [8, 16, 32] "tvm" ⟨"tvm", 0⟩
      = .error .assertError :=
  ⟨(build_depth_bounds 3 2 true "bilinear" (.seq [1, 2, 2]) [8, 16, 32] "tvm"
        ⟨"tvm", 0⟩).1 (Or.inl rfl) (by decide) (by decide) (by decide),
   (build_depth_bounds 3 3 true "bilinear" (.seq [1, 2, 2]) [8, 16, 32] "tvm"
        ⟨"tvm", 0⟩).2 (by decide)⟩

/-- Forward of an embedding module that was built with the module-level
kernel (1,5,5) and scalar stride 1. -/
theorem EmbeddingMod.forward_init_s1 {inC outC : Nat} {w wE : World} {e : EmbeddingMod}
    (h : EmbeddingMod.init inC outC embed_ks (.scalar 1) w = .ok (e, wE))
    {t : TShape} (hc : t.c = inC) (h1 : 1 ≤ t.sp.d) (h2 : 1 ≤ t.sp.h) (h3 : 1 ≤ t.sp.w) :
    e.forward t = .ok ⟨t.n, outC, t.sp⟩ := by
  rw [EmbeddingMod.init_s1_eq] at h
  simp only [Except.ok.injEq, Prod.mk.injEq] at h
  obtain ⟨h4, -⟩ := h
  subst h4
  exact EmbeddingMod.forward_155_s1 hc h1 h2 h3

/-- Forward of a built OutputMod. -/
theorem OutputMod.forward_init {inC outC : Nat} {w wE : World} {o : OutputMod}
    (h : OutputMod.init inC outC w = .ok (o, wE))
    {t : TShape} (hc : t.c = inC) (h1 : 1 ≤ t.sp.d) (h2 : 1 ≤ t.sp.h) (h3 : 1 ≤ t.sp.w) :
    o.forward t = .ok ⟨t.n, outC, t.sp⟩ := by
  rw [OutputMod.init_eq] at h
  simp only [Except.ok.injEq, Prod.mk.injEq] at h
  obtain ⟨h4, -⟩ := h
  subst h4
  exact OutputMod.forward_eq hc h1 h2 h3

/-- C1 counterexample: in the claim's concrete scenario but with
init_stride the tuple (1,1,1) — which Python's comparison with the
integer 1 does not recognize — the network builds with the upsampling
output embedding, whose transposed convolution carries output padding
(0,1,1) with stride (1,1,1); its forward pass fails with a tensor-engine
RuntimeError (output padding must be smaller than stride or dilation),
so the output is not a tensor of shape (1,3,16,64,64). -/
theorem c1_counterexample :
    Except.map (fun p => p.1.forward ⟨1, 1, ⟨16, 64, 64⟩⟩) buildTuple111
      = .ok (.error .runtimeError) := by rfl

/-- C1 (amended): for every configuration whose construction succeeds
with init_stride given as the Python scalar 1, the forward pass on an
input with one channel whose spatial extents are divisible by 2 ^ depth
(and at least that large, so that every stage is non-degenerate)
returns a tensor of exactly the same spatial shape with out_channels
channels.  In particular the concrete scenario holds with the scalar
stride (see the witness); with the tuple (1,1,1) it fails (see the
counterexample). -/
theorem forward_shape_stride1 {aff depth : Nat} {resid : Bool} {upm : String}
    {useBn : Bool} {nfeat : List Nat} {mode : String} {wa : World} {net : RSUNet}
    {w' : World}
    (hb : buildRSUNet aff depth resid upm useBn (.scalar 1) nfeat mode wa = .ok (net, w'))
    {n : Nat} {sp : Sp} (hdv : SpDvd depth sp) (hle : SpLe depth sp) :
    net.forward ⟨n, 1, sp⟩ = .ok ⟨n, aff, sp⟩ := by
  obtain ⟨ein, w1, cms, ps, c1, w2, fs, br, w3, upsD, dcsD, c2, w4, eout, w5, out, hlt,
    hein, hcon, hfs, hbr, hexp, hsel, hout, hnet⟩ := buildRSUNet_inv hb
  subst hnet
  have hpos := spLe_pos hle
  have hposd := shr_pos hle
  have he := EmbeddingMod.forward_init_s1 hein (t := ⟨n, 1, sp⟩) rfl
    hpos.1 hpos.2.1 hpos.2.2
  have hcr := contract_run hcon (n := n) hdv hle
  have hbrf : br.forward ⟨n, c1, shr depth sp⟩ = .ok ⟨n, fs, shr depth sp⟩ :=
    ConvMod.forward3_eq hbr rfl hposd.1 hposd.2.1 hposd.2.2
  have hexr := expand_run hexp (n := n) hdv hle
  rcases hsel with ⟨-, e, he2, hE⟩ | ⟨hpe, -⟩
  · subst hE
    have heo := EmbeddingMod.forward_init_s1 he2 (t := ⟨n, c2, sp⟩) rfl
      hpos.1 hpos.2.1 hpos.2.2
    have hof := OutputMod.forward_init hout (t := ⟨n, embed_nout, sp⟩) rfl
      hpos.1 hpos.2.1 hpos.2.2
    simp only [RSUNet.forward, he, hcr, hbrf, hexr, EOut.forward, heo, hof,
      Bind.bind, Except.bind]
  · exact absurd hpe (by decide)

/-- Witness for C1 (amended): the concrete scenario with the scalar
init_stride 1: depth 2, schedule (8,16,32), out_channels 3 on input
shape (1,1,16,64,64) yields output shape (1,3,16,64,64). -/
theorem forward_shape_stride1_witness :
    (getNet buildScalar1).forward ⟨1, 1, ⟨16, 64, 64⟩⟩ = .ok ⟨1, 3, ⟨16, 64, 64⟩⟩ :=
  @forward_shape_stride1 3 2 true "bilinear" true [8, 16, 32] "tvm" ⟨"tvm", 0⟩
    (getNet buildScalar1) (getW buildScalar1) (by rfl) 1 ⟨16, 64, 64⟩
    (by decide) (by decide)

/-- C5 counterexample: building the network with init_stride = (1,1,1)
(elementwise all ones, as in the claim) selects the upsampling
embedding, not the plain EmbeddingModule — Python's tuple never compares
equal to the integer 1 — and the construction does succeed, so the
selection is observable. -/
theorem c5_counterexample :
    (getNet buildTuple111).embed_out.isPlain = false ∧
    ∃ p, buildTuple111 = .ok p :=
  ⟨by rfl, ⟨_, rfl⟩⟩

/-- C5 (amended): the output feature-lift module is the plain
EmbeddingModule exactly when init_stride is the Python scalar 1; every
other value — including the tuple (1,1,1) — selects
EmbeddingModuleUpsampling with stride init_stride. -/
theorem embed_out_select {aff depth : Nat} {resid : Bool} {upm : String} {useBn : Bool}
    {istr : PyVal} {nfeat : List Nat} {mode : String} {wa : World} {net : RSUNet}
    {w' : World}
    (hb : buildRSUNet aff depth resid upm useBn istr nfeat mode wa = .ok (net, w')) :
    net.embed_out.isPlain = true ↔ istr = PyVal.scalar 1 := by
  obtain ⟨ein, w1, cms, ps, c1, w2, fs, br, w3, upsD, dcsD, c2, w4, eout, w5, out, -,
    -, -, -, -, -, hsel, -, hnet⟩ := buildRSUNet_inv hb
  subst hnet
  show eout.isPlain = true ↔ istr = PyVal.scalar 1
  rcases hsel with ⟨hpe, e, -, hE⟩ | ⟨hpe, e, -, hE⟩
  · subst hE
    exact ⟨fun _ => (pyEqOne_iff istr).mp hpe, fun _ => rfl⟩
  · subst hE
    constructor
    · intro hfalse
      exact absurd hfalse (by simp [EOut.isPlain])
    · intro h1
      have h2 := (pyEqOne_iff istr).mpr h1
      rw [hpe] at h2
      exact absurd h2 (by decide)

/-- Witness for C5 (amended): with the scalar 1 the plain EmbeddingMod
is selected. -/
theorem embed_out_select_witness :
    (getNet buildScalar1).embed_out.isPlain = true :=
  (@embed_out_select 3 2 true "bilinear" true (.scalar 1) [8, 16, 32] "tvm" ⟨"tvm", 0⟩
      (getNet buildScalar1) (getW buildScalar1) (by rfl)).mpr rfl

/-- C2: for every successfully built network of depth at least 1, on a
contracting-path input (embed_nin channels, spatial extents divisible by
2 ^ depth and at least that large): the network holds exactly depth
pooling stages and depth upsample stages; the contracting half records
exactly one skip per stage — the list skipList, of length depth, whose
entry at index d has nfeat[d] channels at the spatial shape halved d
times; the expanding half, which by definition iterates d = depth-1
down to 0 pairing stage d with the recorded skip of the same index d
(the reversed list: last pushed, first popped), runs to completion
consuming exactly those skips; and stage by stage the upsample module at
expanding stage d maps the deeper tensor to exactly the shape of the
skip recorded at contracting stage d, channels included. -/
theorem skip_pairing_lifo {aff depth : Nat} {resid : Bool} {upm : String} {useBn : Bool}
    {istr : PyVal} {nfeat : List Nat} {mode : String} {wa : World} {net : RSUNet}
    {w' : World}
    (hb : buildRSUNet aff depth resid upm useBn istr nfeat mode wa = .ok (net, w'))
    (hd : 1 ≤ depth) (n : Nat) (sp : Sp) (hdv : SpDvd depth sp) (hle : SpLe depth sp) :
    net.pools.length = depth ∧
    net.upsamplesD.length = depth ∧
    (∃ cOut, contractSteps (net.convmods.zip net.pools) ⟨n, embed_nin, sp⟩
        = .ok (⟨n, cOut, shr depth sp⟩, skipList nfeat n 0 depth sp)) ∧
    (skipList nfeat n 0 depth sp).length = depth ∧
    (∀ j, j < depth → (skipList nfeat n 0 depth sp).getD j ⟨0, 0, ⟨0, 0, 0⟩⟩
        = ⟨n, nfeat.getD j 0, shr j sp⟩) ∧
    expandSteps (net.upsamplesD.zip (net.dconvmodsD.zip
        (skipList nfeat n 0 depth sp).reverse)) ⟨n, nfeat.getD depth 0, shr depth sp⟩
      = .ok ⟨n, nfeat.getD 0 0, sp⟩ ∧
    (∀ t, t < depth → (net.upsamplesD.getD t upDflt).forward
        ⟨n, nfeat.getD (depth - t) 0, shr (depth - t) sp⟩
        ⟨n, nfeat.getD (depth - 1 - t) 0, shr (depth - 1 - t) sp⟩
      = .ok ⟨n, nfeat.getD (depth - 1 - t) 0, shr (depth - 1 - t) sp⟩) := by
  obtain ⟨ein, w1, cms, ps, c1, w2, fs, br, w3, upsD, dcsD, c2, w4, eout, w5, out, hlt,
    hein, hcon, hfs, hbr, hexp, hsel, hout, hnet⟩ := buildRSUNet_inv hb
  subst hnet
  have hgd : nfeat.getD depth 0 = fs := getD_of_getElem? hfs
  obtain ⟨hl1, hl2⟩ := buildContract_len hcon
  obtain ⟨hl3, hl4⟩ := buildExpand_len hexp
  have hcr := contract_run hcon (n := n) hdv hle
  have hexr := expand_run hexp (n := n) hdv hle
  have hst := expand_stages hexp hgd.symm
  refine ⟨hl2, hl3, ⟨c1, hcr⟩, skipList_length nfeat n depth 0 sp, ?_, ?_, ?_⟩
  · intro j hj
    have h2 := skipList_getD nfeat n depth 0 j sp hj
    simpa using h2
  · have hc2 : c2 = nfeat.getD 0 0 := buildExpand_cF hexp hd
    rw [hgd, ← hc2]
    exact hexr
  · intro t ht
    exact hst.2.2 n t sp ht hdv hle

/-- Witness for C2: the depth-2 default-stride network with
(post-embedding) spatial shape (4,8,8): two pooling stages and two
upsample stages. -/
theorem skip_pairing_lifo_witness :
    (getNet buildDefault2).pools.length = 2 ∧
    (getNet buildDefault2).upsamplesD.length = 2 :=
  ⟨(@skip_pairing_lifo 3 2 true "bilinear" true (.seq [1, 2, 2]) [8, 16, 32] "tvm"
      ⟨"tvm", 0⟩ (getNet buildDefault2) (getW buildDefault2) (by rfl) (by decide)
      1 ⟨4, 8, 8⟩ (by decide) (by decide)).1,
   (@skip_pairing_lifo 3 2 true "bilinear" true (.seq [1, 2, 2]) [8, 16, 32] "tvm"
      ⟨"tvm", 0⟩ (getNet buildDefault2) (getW buildDefault2) (by rfl) (by decide)
      1 ⟨4, 8, 8⟩ (by decide) (by decide)).2.1⟩

/-- C9 counterexample: constructing a second network (mode tvm) in the
world left behind by a first construction (mode torch) does not change
the first network's backends — each network's Conv blocks keep the
backend chosen from its own constructor's mode, because MODE is written
at the start of each construction before any block is built.  So the
backend of one network cannot be changed by constructing another. -/
theorem c9_counterexample :
    (getNet buildTorch).embed_in.conv.backend = .torch ∧
    (getNet buildTvmAfter).embed_in.conv.backend = .tvm ∧
    (getNet buildTorch).embed_in.conv.backend ≠ .tvm :=
  ⟨by rfl, by rfl, by decide⟩

/-- C9 (amended): construction mutates the module-level global MODE to
the constructor's mode argument — the returned world carries it — and
every Conv block reads that global at its own construction time to
choose its backend: all Conv blocks of the constructed network use this
construction's mode (it is set before any block is built), and any Conv
block constructed afterwards in the resulting world also reads it.
Construction is therefore not free of effects outside the constructed
object; an existing network's backends, however, are not changed by a
later construction (see the counterexample). -/
theorem mode_global_effect {aff depth : Nat} {resid : Bool} {upm : String} {useBn : Bool}
    {istr : PyVal} {nfeat : List Nat} {mode : String} {wa : World} {net : RSUNet}
    {w' : World}
    (hb : buildRSUNet aff depth resid upm useBn istr nfeat mode wa = .ok (net, w')) :
    w'.mode = mode ∧
    (∀ b ∈ net.convBackends, b = bk mode) ∧
    (∀ (inC outC : Nat) (ks st pd : Sp) (c : Conv) (w2 : World),
      Conv.init inC outC ks st pd false w' = .ok (c, w2) → c.backend = bk mode) := by
  obtain ⟨ein, w1, cms, ps, c1, w2, fs, br, w3, upsD, dcsD, c2, w4, eout, w5, out, hlt,
    hein, hcon, hfs, hbr, hexp, hsel, hout, hnet⟩ := buildRSUNet_inv hb
  subst hnet
  obtain ⟨m1, bein⟩ := embeddingMod_init_inv hein
  obtain ⟨m2, bcms⟩ := buildContract_inv hcon
  obtain ⟨m3, bbr1, bbr2, bbr3⟩ := convMod_init_inv hbr
  obtain ⟨m4, bups, bdcs⟩ := buildExpand_inv hexp
  have hw1 : w1.mode = mode := m1
  have hw2 : w2.mode = mode := by rw [m2, hw1]
  have hw3 : w3.mode = mode := by rw [m3, hw2]
  have hw4 : w4.mode = mode := by rw [m4, hw3]
  have hw5 : w5.mode = mode := by
    rcases hsel with ⟨-, e, he2, -⟩ | ⟨-, e, he2, -⟩
    · obtain ⟨m5, -⟩ := embeddingMod_init_inv he2
      rw [m5, hw4]
    · have m5 := embeddingModUP_init_inv he2
      rw [m5, hw4]
  obtain ⟨m6, bout⟩ := outputMod_init_inv hout
  have hwF : w'.mode = mode := by rw [m6, hw5]
  refine ⟨hwF, ?_, ?_⟩
  · intro b hbm
    have hbm2 : b ∈ ein.conv.backend ::
        ((cms.map ConvMod.backends).flatten ++ br.backends ++
          (upsD.map UpsampleMod.backends).flatten ++
          (dcsD.map ConvMod.backends).flatten ++ eout.backends ++
          [out.conv.backend]) := hbm
    rcases List.mem_cons.mp hbm2 with h | h
    · rw [h]
      exact bein
    · rcases List.mem_append.mp h with h | h
      · rcases List.mem_append.mp h with h | h
        · rcases List.mem_append.mp h with h | h
          · rcases List.mem_append.mp h with h | h
            · rcases List.mem_append.mp h with h | h
              · obtain ⟨l, hl, hbl⟩ := List.mem_flatten.mp h
                obtain ⟨m, hm, hlm⟩ := List.mem_map.mp hl
                subst hlm
                have h9 := bcms m hm b hbl
                rw [h9, hw1]
              · have h9 : b = br.conv1.backend ∨ b = br.conv2.backend ∨
                    b = br.conv3.backend := by
                  simpa [ConvMod.backends] using h
                rcases h9 with h9 | h9 | h9
                · rw [h9, bbr1, hw2]
                · rw [h9, bbr2, hw2]
                · rw [h9, bbr3, hw2]
            · obtain ⟨l, hl, hbl⟩ := List.mem_flatten.mp h
              obtain ⟨u, hu, hlm⟩ := List.mem_map.mp hl
              subst hlm
              have h9 := bups u hu b hbl
              rw [h9, hw3]
          · obtain ⟨l, hl, hbl⟩ := List.mem_flatten.mp h
            obtain ⟨m, hm, hlm⟩ := List.mem_map.mp hl
            subst hlm
            have h9 := bdcs m hm b hbl
            rw [h9, hw3]
        · rcases hsel with ⟨-, e, he2, hE⟩ | ⟨-, e, he2, hE⟩
          · subst hE
            have h9 : b = e.conv.backend := by
              simpa [EOut.backends] using h
            obtain ⟨-, hback⟩ := embeddingMod_init_inv he2
            rw [h9, hback, hw4]
          · subst hE
            simp [EOut.backends] at h
      · have h9 := List.mem_singleton.mp h
        rw [h9, bout, hw5]
  · intro inC outC ks st pd c w2x hc
    obtain ⟨-, hback⟩ := conv_init_inv hc
    rw [hback, hwF]

/-- Witness for C9 (amended): after the torch-mode construction the
global MODE holds torch. -/
theorem mode_global_effect_witness :
    (getW buildTorch).mode = "torch" :=
  (@mode_global_effect 3 1 true "bilinear" true (.seq [1, 2, 2]) [8, 16] "torch"
      ⟨"tvm", 0⟩ (getNet buildTorch) (getW buildTorch) (by rfl)).1

end UNet
